import Mathlib

/-!
USB PHDC transport plugin (`usb_phdc_drive.c`): descriptor scans and resource lifecycle.

A shallow embedding of the functions of `src/communication/plugin/usb/usb_phdc_drive.c`.

* Buffers are lists of bytes (`Fin 256`); `buffer_length` is the length of the list, as at
  the call sites (`interface_desc->extra`, `interface_desc->extra_length`).
* A C read `buffer[i]` is `rd buffer i`; a read at an index `≥ buffer_length` is recorded as
  the fault `out_of_bounds i` rather than given a value.
* The `do { ... } while (index < buffer_length)` loops take a fuel argument: the C loop has
  no iteration bound of its own, and a run that needs more iterations than the fuel ends in
  the fault `out_of_fuel`.
* The tag and marker macros come from `usb_phdc_definitions.h`; they are the fields of
  `PhdcDefs`, and every function of the scans takes them as a parameter.
* The C `int` locals are natural numbers: `index` grows by at most 255 an iteration and the
  loop stops once it reaches `buffer_length`, so no `int` of the scans overflows.
-/

namespace UsbPhdc

/-- One `unsigned char`. -/
abbrev Byte := Fin 256

/-- Why a run of a scan did not return. -/
inductive Fault where
  | out_of_bounds (i : Nat)
  | out_of_fuel
  deriving DecidableEq, Repr

deriving instance DecidableEq for Except

/-- The macros of `usb_phdc_definitions.h` that the two descriptor scans compare against. -/
structure PhdcDefs where
  PHDC_CLASSFUNCTION_DESCRIPTOR : Nat
  PHDC_11073PHD_FUNCTION_DESCRIPTOR : Nat
  PHDC_11073_20601 : Nat
  PHDC_VENDOR : Nat
  deriving DecidableEq, Repr

/-- The C read `(int) buffer[i]`. -/
def rd (buffer : List Byte) (i : Nat) : Except Fault Nat :=
  match buffer[i]? with
  | some b => Except.ok b.val
  | none => Except.error (Fault.out_of_bounds i)

/-! ## `get_device_specializations` -/

/-- Locals of `get_device_specializations` that live across iterations
(`spec_list = none` is the C `NULL`). -/
structure SpecState where
  index : Nat
  num_specs : Nat
  spec_list : Option (List Nat)
  deriving DecidableEq, Repr

/-- The inner `for (i = 0; i < *num_specs; i++)` loop, from counter `i` with `k` iterations
left: `spec_list[i] = buffer[2*i + index + 4] + buffer[2*i + index + 5] * 256`. -/
def read_specs (buffer : List Byte) (index : Nat) : Nat → Nat → Except Fault (List Nat)
  | _, 0 => Except.ok []
  | i, k + 1 =>
    (rd buffer (2 * i + index + 4)).bind fun lo =>
    (rd buffer (2 * i + index + 5)).bind fun hi =>
    (read_specs buffer index (i + 1) k).bind fun rest =>
    Except.ok ((lo + hi * 256) :: rest)

/-- One pass through the body of the `do ... while` of `get_device_specializations`. -/
def specs_body (d : PhdcDefs) (buffer : List Byte) (s : SpecState) : Except Fault SpecState :=
  (rd buffer s.index).bind fun len =>
  (rd buffer (s.index + 1)).bind fun type =>
  (if type = d.PHDC_11073PHD_FUNCTION_DESCRIPTOR then
      (rd buffer (s.index + 3)).bind fun n =>
      if n > 0 then
        (read_specs buffer s.index 0 n).bind fun l =>
        Except.ok { s with num_specs := n, spec_list := some l }
      else
        Except.ok { s with num_specs := n }
    else Except.ok s).bind fun s1 =>
  Except.ok { s1 with index := s.index + len }

/-- The `do { body } while (index < buffer_length)` loop of `get_device_specializations`. -/
def specs_loop (d : PhdcDefs) (buffer : List Byte) : Nat → SpecState → Except Fault SpecState
  | 0, _ => Except.error Fault.out_of_fuel
  | fuel + 1, s =>
    (specs_body d buffer s).bind fun s1 =>
    if s1.index < buffer.length then specs_loop d buffer fuel s1 else Except.ok s1

/-- The function `get_device_specializations(buffer, buffer_length, num_specs)`: the returned
pointer (`none` for `NULL`) and the final value of `*num_specs`, whose value on entry is
`num_specs`. -/
def get_device_specializations (d : PhdcDefs) (buffer : List Byte) (num_specs : Nat)
    (fuel : Nat) : Except Fault (Option (List Nat) × Nat) :=
  (if buffer.length > 0 then specs_loop d buffer fuel ⟨0, num_specs, none⟩
    else Except.ok ⟨0, num_specs, none⟩).bind fun s =>
  Except.ok (s.spec_list, s.num_specs)

/-! ## `is_ieee11073_compatible` -/

/-- Locals of `is_ieee11073_compatible` that live across iterations. -/
structure CompatState where
  index : Nat
  number_of_specs : Nat
  is_ieee11073 : Nat
  deriving DecidableEq, Repr

/-- One pass through the body of the `do ... while` of `is_ieee11073_compatible`. -/
def compat_body (d : PhdcDefs) (buffer : List Byte) (s : CompatState) :
    Except Fault CompatState :=
  (rd buffer s.index).bind fun len =>
  (rd buffer (s.index + 1)).bind fun b1 =>
  let type := b1 &&& 0xFF
  (if type = d.PHDC_CLASSFUNCTION_DESCRIPTOR then
      (rd buffer (s.index + 2)).bind fun b2 =>
      let value := b2 &&& 0xFF
      if value = d.PHDC_11073_20601 then Except.ok { s with is_ieee11073 := 1 }
      else if value = d.PHDC_VENDOR then Except.ok { s with is_ieee11073 := 0 }
      else Except.ok s
    else if type = d.PHDC_11073PHD_FUNCTION_DESCRIPTOR then
      (rd buffer (s.index + 3)).bind fun b3 =>
      Except.ok { s with number_of_specs := b3 &&& 0xFF }
    else Except.ok s).bind fun s1 =>
  Except.ok { s1 with index := s.index + len }

/-- The `do { body } while (index < buffer_length)` loop of `is_ieee11073_compatible`. -/
def compat_loop (d : PhdcDefs) (buffer : List Byte) :
    Nat → CompatState → Except Fault CompatState
  | 0, _ => Except.error Fault.out_of_fuel
  | fuel + 1, s =>
    (compat_body d buffer s).bind fun s1 =>
    if s1.index < buffer.length then compat_loop d buffer fuel s1 else Except.ok s1

/-- The function `is_ieee11073_compatible(buffer, buffer_length)`:
`ret = (number_of_specs > 0 && is_ieee11073 == 1)`. -/
def is_ieee11073_compatible (d : PhdcDefs) (buffer : List Byte) (fuel : Nat) :
    Except Fault Nat :=
  (if buffer.length > 0 then compat_loop d buffer fuel ⟨0, 0, 0⟩
    else Except.ok ⟨0, 0, 0⟩).bind fun s =>
  Except.ok (if s.number_of_specs > 0 ∧ s.is_ieee11073 = 1 then 1 else 0)

/-- The 13-byte buffer of the specification's worked example. -/
def exampleBuffer : List Byte :=
  [0x05, 0x14, 0x00, 0x01, 0x00, 0x08, 0x10, 0x00, 0x02, 0x04, 0x00, 0x05, 0x00]

/-! ## Descriptor buffers as tiled entries -/

/-- A descriptor entry: at least the length byte and the type byte, and the length byte is
the number of bytes of the entry. -/
def WfEntry (e : List Byte) : Prop :=
  2 ≤ e.length ∧ e.head?.map Fin.val = some e.length

instance : DecidablePred WfEntry := fun e =>
  inferInstanceAs (Decidable (2 ≤ e.length ∧ e.head?.map Fin.val = some e.length))

/-- Every entry of the list is an entry whose length byte is its length: the concatenation
`es.flatten` is a buffer that the entries tile exactly. -/
def Tiled (es : List (List Byte)) : Prop := ∀ e ∈ es, WfEntry e

instance : DecidablePred Tiled := fun es =>
  inferInstanceAs (Decidable (∀ e ∈ es, WfEntry e))

/-- A final entry that may be cut short: at least the length byte and the type byte are
there, and the declared length reaches the end of the entry's bytes or past it. -/
def TruncEntry (e : List Byte) : Prop :=
  2 ≤ e.length ∧ e.length ≤ (e.getD 0 0).val

instance : DecidablePred TruncEntry := fun e =>
  inferInstanceAs (Decidable (2 ≤ e.length ∧ e.length ≤ (e.getD 0 0).val))

/-- For each entry, the bytes of the buffer from the entry's offset to the end of the
buffer (the entry followed by all later entries): what the scan can read at `index + k`. -/
def views : List (List Byte) → List (List Byte)
  | [] => []
  | e :: rest => (e ++ rest.flatten) :: views rest

/-- The byte at offset `k` of a view (0 past its end). -/
def byteAt (v : List Byte) (k : Nat) : Nat := (v.getD k 0).val

/-- The type tag of an entry, `buffer[index + 1]`. -/
def tagOf (v : List Byte) : Nat := byteAt v 1

/-- The value byte of a class-function entry, `buffer[index + 2]`. -/
def valueOf (v : List Byte) : Nat := byteAt v 2

/-- The specialization count of a function-descriptor entry, `buffer[index + 3]`. -/
def countOf (v : List Byte) : Nat := byteAt v 3

/-- The reads that `is_ieee11073_compatible` makes for the entry with view `v` are inside the
buffer. -/
def CompatInBounds (d : PhdcDefs) (v : List Byte) : Prop :=
  (tagOf v = d.PHDC_CLASSFUNCTION_DESCRIPTOR → 3 ≤ v.length) ∧
  (tagOf v = d.PHDC_11073PHD_FUNCTION_DESCRIPTOR → 4 ≤ v.length)

instance (d : PhdcDefs) : DecidablePred (CompatInBounds d) := fun v =>
  inferInstanceAs (Decidable ((tagOf v = d.PHDC_CLASSFUNCTION_DESCRIPTOR → 3 ≤ v.length) ∧
    (tagOf v = d.PHDC_11073PHD_FUNCTION_DESCRIPTOR → 4 ≤ v.length)))

/-- The reads that `get_device_specializations` makes for the entry with view `v` are inside
the buffer: the count byte and the `2 * count` bytes of codes after it. -/
def SpecsInBounds (d : PhdcDefs) (v : List Byte) : Prop :=
  tagOf v = d.PHDC_11073PHD_FUNCTION_DESCRIPTOR → 4 + 2 * countOf v ≤ v.length

instance (d : PhdcDefs) : DecidablePred (SpecsInBounds d) := fun v =>
  inferInstanceAs (Decidable (tagOf v = d.PHDC_11073PHD_FUNCTION_DESCRIPTOR →
    4 + 2 * countOf v ≤ v.length))

/-- The effect of one iteration of `is_ieee11073_compatible` on
`(number_of_specs, is_ieee11073)`, read off the view of the entry. -/
def cstep (d : PhdcDefs) (acc : Nat × Nat) (v : List Byte) : Nat × Nat :=
  if tagOf v = d.PHDC_CLASSFUNCTION_DESCRIPTOR then
    if valueOf v = d.PHDC_11073_20601 then (acc.1, 1)
    else if valueOf v = d.PHDC_VENDOR then (acc.1, 0)
    else acc
  else if tagOf v = d.PHDC_11073PHD_FUNCTION_DESCRIPTOR then (countOf v, acc.2)
  else acc

/-- The codes `i, i+1, ..., i+k-1` of a function-descriptor view, each read as low byte plus
256 times high byte. -/
def codesFrom (v : List Byte) : Nat → Nat → List Nat
  | _, 0 => []
  | i, k + 1 => (byteAt v (2 * i + 4) + byteAt v (2 * i + 5) * 256) :: codesFrom v (i + 1) k

/-- The effect of one iteration of `get_device_specializations` on
`(*num_specs, spec_list)`, read off the view of the entry. -/
def sstep (d : PhdcDefs) (acc : Nat × Option (List Nat)) (v : List Byte) :
    Nat × Option (List Nat) :=
  if tagOf v = d.PHDC_11073PHD_FUNCTION_DESCRIPTOR then
    if countOf v > 0 then (countOf v, some (codesFrom v 0 (countOf v)))
    else (countOf v, acc.2)
  else acc

/-! ### The verdict in the specification's words ("last marker seen wins") -/

/-- The class-function entries whose value byte is the 11073-20601 marker or the vendor
marker, in scan order. -/
def markerEntries (d : PhdcDefs) (vs : List (List Byte)) : List (List Byte) :=
  vs.filter fun v => decide (tagOf v = d.PHDC_CLASSFUNCTION_DESCRIPTOR ∧
    (valueOf v = d.PHDC_11073_20601 ∨ valueOf v = d.PHDC_VENDOR))

/-- The function-descriptor entries, in scan order. -/
def functionDescriptors (d : PhdcDefs) (vs : List (List Byte)) : List (List Byte) :=
  vs.filter fun v => decide (tagOf v = d.PHDC_11073PHD_FUNCTION_DESCRIPTOR)

/-- The class-function entries, in scan order. -/
def classFunctions (d : PhdcDefs) (vs : List (List Byte)) : List (List Byte) :=
  vs.filter fun v => decide (tagOf v = d.PHDC_CLASSFUNCTION_DESCRIPTOR)

/-- Condition (a): there is a marker entry and the last one carries the 11073-20601
marker. -/
def LastMarkerIs20601 (d : PhdcDefs) (vs : List (List Byte)) : Prop :=
  (markerEntries d vs).getLast?.map valueOf = some d.PHDC_11073_20601

instance (d : PhdcDefs) : DecidablePred (LastMarkerIs20601 d) := fun vs =>
  inferInstanceAs (Decidable
    ((markerEntries d vs).getLast?.map valueOf = some d.PHDC_11073_20601))

/-- The specialization count read from the last function-descriptor entry (0 when there is
no function-descriptor entry). -/
def lastCount (d : PhdcDefs) (vs : List (List Byte)) : Nat :=
  ((functionDescriptors d vs).getLast?.map countOf).getD 0

/-- Condition (b): there is a function-descriptor entry and the count of the last one is
positive. -/
def LastCountPositive (d : PhdcDefs) (vs : List (List Byte)) : Prop :=
  ∃ f, (functionDescriptors d vs).getLast? = some f ∧ 0 < countOf f

/-- The two bytes of a 16-bit code in little-endian order: low byte, then high byte. -/
def le16 (c : Nat) : List Byte := [Fin.ofNat (c % 256), Fin.ofNat (c / 256)]

/-- The bytes of a list of 16-bit codes, each in little-endian order. -/
def encodeCodes : List Nat → List Byte
  | [] => []
  | c :: cs => le16 c ++ encodeCodes cs

/-- A sample assignment of the macros: the descriptor types 0x20 and 0x30 and the data codes
0x02 (11073-20601) and 0x01 (vendor) of the USB PHDC class. -/
def sampleDefs : PhdcDefs := ⟨0x20, 0x30, 0x02, 0x01⟩

/-- A class-function entry carrying the 11073-20601 marker of `sampleDefs`, then a function
descriptor with the two codes 4 and 5. -/
def sampleEntries : List (List Byte) :=
  [[0x04, 0x20, 0x02, 0x00], [0x08, 0x30, 0x00, 0x02, 0x04, 0x00, 0x05, 0x00]]

/-- The two entries that tile `exampleBuffer`. -/
def exampleEntries : List (List Byte) :=
  [[0x05, 0x14, 0x00, 0x01, 0x00], [0x08, 0x10, 0x00, 0x02, 0x04, 0x00, 0x05, 0x00]]

/-- The offsets at which the scans start an iteration, from offset `i`, for at most `fuel`
iterations: `index += len` while `index < buffer_length`. -/
def scanOffsets (buffer : List Byte) : Nat → Nat → List Nat
  | 0, _ => []
  | fuel + 1, i =>
    i :: (if i + byteAt buffer i < buffer.length then
      scanOffsets buffer fuel (i + byteAt buffer i) else [])

/-- A buffer of four zero bytes: its first entry has length byte 0. -/
def zeroLengthBuffer : List Byte := [0x00, 0x00, 0x00, 0x00]

/-- The truncated buffer of the specification's second example. -/
def truncatedBuffer : List Byte := [0x05, 0x14, 0x00, 0x01]

/-- The entries of `sampleEntries` with the vendor marker of `sampleDefs` in place of the
11073-20601 marker. -/
def vendorEntries : List (List Byte) :=
  [[0x04, 0x20, 0x01, 0x00], [0x08, 0x30, 0x00, 0x02, 0x04, 0x00, 0x05, 0x00]]

/-- A 11073-20601 class-function entry, then a vendor class-function entry, then a function
descriptor with the two codes 4 and 5 (constants of `sampleDefs`). -/
def markerThenVendorEntries : List (List Byte) :=
  [[0x04, 0x20, 0x02, 0x00], [0x04, 0x20, 0x01, 0x00],
    [0x08, 0x30, 0x00, 0x02, 0x04, 0x00, 0x05, 0x00]]

/-- A complete 11073-20601 class-function entry followed by a function descriptor that
declares 200 bytes of which only 6 are in the buffer (constants of `sampleDefs`). -/
def cutFunctionDescriptorBuffer : List Byte :=
  [0x04, 0x20, 0x02, 0x00, 0xC8, 0x30, 0x00, 0x01, 0x04, 0x00]

/-! ## Device records, sessions and teardown

Pointers are `Option Nat` (`none` is `NULL`, `some a` an address or handle); the calls made
to libusb and to the allocator are recorded, in order, as a list of `Action`s. What libusb
answers is an input of the model. `LIBUSB_SUCCESS` is 0. -/

/-- A call to libusb or to the allocator. -/
inductive Action where
  | libusb_init (ret : Int)
  | libusb_open_device_with_vid_pid (ctx : Option Nat) (vendor_id product_id : Nat)
  | libusb_claim_interface (handle : Option Nat) (iface : Nat)
  | libusb_reset_device (handle : Option Nat)
  | libusb_get_pollfds (ctx : Option Nat)
  | libusb_bulk_transfer (handle : Option Nat) (endpoint : Nat) (length : Nat)
  | libusb_release_interface (handle : Option Nat) (iface : Nat)
  | libusb_close (handle : Option Nat)
  | libusb_unref_device (device : Option Nat)
  | libusb_exit (ctx : Option Nat)
  | calloc (result : Option Nat)
  | free (ptr : Option Nat)
  deriving DecidableEq, Repr

/-- The calls that give a resource back. -/
def Action.isRelease : Action → Bool
  | Action.libusb_release_interface _ _ => true
  | Action.libusb_close _ => true
  | Action.libusb_unref_device _ => true
  | Action.libusb_exit _ => true
  | Action.free _ => true
  | _ => false

/-- The fields of `usb_phdc_device` that the functions of `usb_phdc_drive.c` use (the
struct is declared in `usb_phdc_drive.h`). -/
structure usb_phdc_device where
  usb_device_context : Option Nat
  usb_device_handle : Option Nat
  usb_device : Option Nat
  vendor_id : Nat
  product_id : Nat
  health_interface : Nat
  ep_bulk_in : Nat
  ep_bulk_out : Nat
  ep_interrupt_in : Nat
  name : Option Nat
  manufacturer : Option Nat
  serial_number : Option Nat
  specializations : Option Nat
  number_of_specializations : Nat
  file_descriptors : Option Nat
  file_descriptors_count : Int
  deriving DecidableEq, Repr

/-- What libusb and the allocator answer during one call of `open_phdc_handle`. -/
structure OpenAnswers where
  init_ret : Int
  init_ctx : Nat
  opened : Option Nat
  claim_ret : Int
  pollfds : Nat
  fds_ptr : Option Nat
  lpfds_ptr : Option Nat
  deriving DecidableEq, Repr

/-- The function `get_phdc_file_descriptors`: count the pollfds of the context, allocate the
array, copy, free libusb's list. `pollfds` is the number of entries libusb reports. -/
def get_phdc_file_descriptors (a : OpenAnswers) (dev : usb_phdc_device) :
    usb_phdc_device × List Action :=
  ({ dev with file_descriptors_count := (a.pollfds : Int), file_descriptors := a.fds_ptr },
    [Action.libusb_get_pollfds dev.usb_device_context, Action.calloc a.fds_ptr,
      Action.free a.lpfds_ptr])

/-- The function `open_phdc_handle`: the return value, the record afterwards and the calls
made. `libusb_init` stores the new context in the record only when it succeeds. -/
def open_phdc_handle (a : OpenAnswers) (dev : usb_phdc_device) :
    Nat × usb_phdc_device × List Action :=
  if a.init_ret ≠ 0 then
    -- goto init_failure
    (0, dev, [Action.libusb_init a.init_ret])
  else
    let dev1 := { dev with usb_device_context := some a.init_ctx }
    let dev2 := { dev1 with usb_device_handle := a.opened }
    let t2 := [Action.libusb_init a.init_ret,
      Action.libusb_open_device_with_vid_pid dev1.usb_device_context dev1.vendor_id
        dev1.product_id]
    if dev2.usb_device_handle = none then
      -- goto release_device
      (0, dev2, t2 ++ [Action.libusb_unref_device dev2.usb_device])
    else
      let t3 := t2 ++ [Action.libusb_claim_interface dev2.usb_device_handle
        dev2.health_interface]
      if a.claim_ret ≠ 0 then
        -- goto close_device, falling through to release_device
        (0, dev2, t3 ++ [Action.libusb_close dev2.usb_device_handle,
          Action.libusb_unref_device dev2.usb_device])
      else
        let r := get_phdc_file_descriptors a dev2
        (1, r.1, t3 ++ [Action.libusb_reset_device dev2.usb_device_handle] ++ r.2)

/-- First block of `release_phdc_device`: release the interface and close the handle. -/
def release_handle (r : usb_phdc_device × List Action) : usb_phdc_device × List Action :=
  if r.1.usb_device_handle ≠ none then
    ({ r.1 with usb_device_handle := none },
      r.2 ++ [Action.libusb_release_interface r.1.usb_device_handle r.1.health_interface,
        Action.libusb_close r.1.usb_device_handle])
  else r

/-- Second block: drop the device reference. -/
def release_reference (r : usb_phdc_device × List Action) : usb_phdc_device × List Action :=
  if r.1.usb_device ≠ none then
    ({ r.1 with usb_device := none }, r.2 ++ [Action.libusb_unref_device r.1.usb_device])
  else r

/-- Third block: free the manufacturer string. -/
def release_manufacturer (r : usb_phdc_device × List Action) :
    usb_phdc_device × List Action :=
  if r.1.manufacturer ≠ none then
    ({ r.1 with manufacturer := none }, r.2 ++ [Action.free r.1.manufacturer])
  else r

/-- Fourth block: free the name string. -/
def release_name (r : usb_phdc_device × List Action) : usb_phdc_device × List Action :=
  if r.1.name ≠ none then
    ({ r.1 with name := none }, r.2 ++ [Action.free r.1.name])
  else r

/-- Fifth block: free the serial string. -/
def release_serial_number (r : usb_phdc_device × List Action) :
    usb_phdc_device × List Action :=
  if r.1.serial_number ≠ none then
    ({ r.1 with serial_number := none }, r.2 ++ [Action.free r.1.serial_number])
  else r

/-- Sixth block: free the specialization list. -/
def release_specializations (r : usb_phdc_device × List Action) :
    usb_phdc_device × List Action :=
  if r.1.specializations ≠ none then
    ({ r.1 with specializations := none }, r.2 ++ [Action.free r.1.specializations])
  else r

/-- Seventh block: `if (file_descriptors_count > 0)` reset the count, free and null the
poll-set array. -/
def release_file_descriptors (r : usb_phdc_device × List Action) :
    usb_phdc_device × List Action :=
  if r.1.file_descriptors_count > 0 then
    ({ r.1 with file_descriptors_count := 0, file_descriptors := none },
      r.2 ++ [Action.free r.1.file_descriptors])
  else r

/-- Eighth block: shut down the per-device context. -/
def release_context (r : usb_phdc_device × List Action) : usb_phdc_device × List Action :=
  if r.1.usb_device_context ≠ none then
    ({ r.1 with usb_device_context := none },
      r.2 ++ [Action.libusb_exit r.1.usb_device_context])
  else r

/-- The function `release_phdc_device`, its eight blocks in order: the record afterwards and
the calls made. -/
def release_phdc_device (dev : usb_phdc_device) : usb_phdc_device × List Action :=
  release_context (release_file_descriptors (release_specializations
    (release_serial_number (release_name (release_manufacturer (release_reference
      (release_handle (dev, []))))))))

/-- The fields of `usb_phdc_context` that `release_phdc_resources` uses;
`number_of_devices` is the length of `device_list`. -/
structure usb_phdc_context where
  usb_context : Option Nat
  device_list : List usb_phdc_device
  deriving DecidableEq, Repr

/-- The `for (k = 0; k < number_of_devices; k++) release_phdc_device(&device_list[k])` loop:
the records afterwards and the calls made. -/
def release_devices : List usb_phdc_device → List usb_phdc_device × List Action
  | [] => ([], [])
  | dev :: rest =>
    let r := release_phdc_device dev
    let rs := release_devices rest
    (r.1 :: rs.1, r.2 ++ rs.2)

/-- The function `release_phdc_resources`: the context afterwards and the calls made. -/
def release_phdc_resources (c : usb_phdc_context) : usb_phdc_context × List Action :=
  let rs := release_devices c.device_list
  ({ c with device_list := rs.1 }, rs.2 ++ [Action.libusb_exit c.usb_context])

/-- What the blocking `libusb_bulk_transfer` of `listen_for_incoming_data` did: its return
code, the value it left in `read_length`, and the contents of the 1024-byte `data` array. -/
structure BulkOutcome where
  ret : Int
  read_length : Int
  data : List Byte
  deriving DecidableEq, Repr

/-- The constant `MAX_BUFFER_SIZE`. -/
def MAX_BUFFER_SIZE : Nat := 1024

/-- The function `listen_for_incoming_data`: the calls made to libusb and the invocations of
`data_read_cb`, each with its two arguments. -/
def listen_for_incoming_data (o : BulkOutcome) (dev : usb_phdc_device) :
    List Action × List (List Byte × Int) :=
  let t := [Action.libusb_bulk_transfer dev.usb_device_handle dev.ep_bulk_in MAX_BUFFER_SIZE]
  if o.ret < 0 then (t, [])
  else (t, [(o.data, o.read_length)])

/-- A record as discovery leaves it: a device reference and the strings, not opened. -/
def discoveredDevice : usb_phdc_device :=
  { usb_device_context := none, usb_device_handle := none, usb_device := some 7,
    vendor_id := 0x1234, product_id := 0x5678, health_interface := 0,
    ep_bulk_in := 0x81, ep_bulk_out := 0x02, ep_interrupt_in := 0x83,
    name := some 100, manufacturer := some 101, serial_number := some 102,
    specializations := some 103, number_of_specializations := 1,
    file_descriptors := none, file_descriptors_count := 0 }

/-- Answers in which `libusb_init` and the open succeed and the interface claim fails with
`LIBUSB_ERROR_BUSY` (-6). -/
def claimFails : OpenAnswers :=
  { init_ret := 0, init_ctx := 40, opened := some 50, claim_ret := -6, pollfds := 0,
    fds_ptr := none, lpfds_ptr := none }

/-- A record after a successful open in which libusb reported no pollfds and `calloc` of
zero bytes gave a non-null pointer. -/
def openedNoPollfds : usb_phdc_device :=
  { discoveredDevice with
    usb_device_context := some 40
    usb_device_handle := some 50
    file_descriptors := some 60
    file_descriptors_count := 0 }

/-- Every guard of `release_phdc_device` is false on the record. -/
def Released (dev : usb_phdc_device) : Prop :=
  dev.usb_device_handle = none ∧ dev.usb_device = none ∧ dev.manufacturer = none ∧
  dev.name = none ∧ dev.serial_number = none ∧ dev.specializations = none ∧
  ¬ 0 < dev.file_descriptors_count ∧ dev.usb_device_context = none

/-- A transport context with one opened record (handle 50, per-device context 40, two
pollfds) and the context-wide USB context 1. -/
def openedContext : usb_phdc_context :=
  { usb_context := some 1,
    device_list := [{ discoveredDevice with
      usb_device_context := some 40
      usb_device_handle := some 50
      file_descriptors := some 60
      file_descriptors_count := 2 }] }

/-- A blocking read that returns 0 (`LIBUSB_SUCCESS`) having transferred no byte. -/
def emptyRead : BulkOutcome := { ret := 0, read_length := 0, data := [] }

/-- A blocking read that returns `LIBUSB_ERROR_TIMEOUT` (-7) after three bytes arrived. -/
def timedOutRead : BulkOutcome := { ret := -7, read_length := 3, data := [0x01, 0x02, 0x03] }

/-! ## Endpoint classification in `get_phdc_device_attributes`

The endpoint descriptors and the four constants are libusb's (`libusb.h`):
`LIBUSB_TRANSFER_TYPE_BULK` = 2, `LIBUSB_TRANSFER_TYPE_INTERRUPT` = 3,
`LIBUSB_ENDPOINT_IN` = 0x80 and `LIBUSB_ENDPOINT_OUT` = 0x00. -/

/-- The fields of `struct libusb_endpoint_descriptor` that the classification reads, both
`uint8_t`. -/
structure libusb_endpoint_descriptor where
  bEndpointAddress : Byte
  bmAttributes : Byte
  deriving DecidableEq, Repr

/-- The constant `LIBUSB_TRANSFER_TYPE_BULK` of libusb. -/
def LIBUSB_TRANSFER_TYPE_BULK : Nat := 2

/-- The constant `LIBUSB_TRANSFER_TYPE_INTERRUPT` of libusb. -/
def LIBUSB_TRANSFER_TYPE_INTERRUPT : Nat := 3

/-- The constant `LIBUSB_ENDPOINT_IN` of libusb. -/
def LIBUSB_ENDPOINT_IN : Nat := 0x80

/-- The constant `LIBUSB_ENDPOINT_OUT` of libusb. -/
def LIBUSB_ENDPOINT_OUT : Nat := 0x00

/-- The body of the `for (i = 0; i < bNumEndpoints; i++)` loop of
`get_phdc_device_attributes`, for the endpoint `ep = interface_desc->endpoint[i]`. -/
def classify_endpoint (dev : usb_phdc_device) (ep : libusb_endpoint_descriptor) :
    usb_phdc_device :=
  let type := ep.bmAttributes.val &&& 0x03
  let direction := ep.bEndpointAddress.val &&& 0x80
  if type = LIBUSB_TRANSFER_TYPE_BULK ∧ direction = LIBUSB_ENDPOINT_IN then
    { dev with ep_bulk_in := ep.bEndpointAddress.val }
  else if type = LIBUSB_TRANSFER_TYPE_BULK ∧ direction = LIBUSB_ENDPOINT_OUT then
    { dev with ep_bulk_out := ep.bEndpointAddress.val }
  else if type = LIBUSB_TRANSFER_TYPE_INTERRUPT ∧ direction = LIBUSB_ENDPOINT_IN then
    { dev with ep_interrupt_in := ep.bEndpointAddress.val }
  else dev

/-- The endpoint loop of `get_phdc_device_attributes` over the endpoints of the matched
interface, in order. -/
def classify_endpoints (dev : usb_phdc_device) (eps : List libusb_endpoint_descriptor) :
    usb_phdc_device :=
  eps.foldl classify_endpoint dev

/-- A bulk endpoint with direction IN. -/
def isBulkIn (ep : libusb_endpoint_descriptor) : Bool :=
  decide (ep.bmAttributes.val &&& 0x03 = 2 ∧ ep.bEndpointAddress.val &&& 0x80 = 0x80)

/-- A bulk endpoint with direction OUT. -/
def isBulkOut (ep : libusb_endpoint_descriptor) : Bool :=
  decide (ep.bmAttributes.val &&& 0x03 = 2 ∧ ep.bEndpointAddress.val &&& 0x80 = 0x00)

/-- An interrupt endpoint with direction IN. -/
def isInterruptIn (ep : libusb_endpoint_descriptor) : Bool :=
  decide (ep.bmAttributes.val &&& 0x03 = 3 ∧ ep.bEndpointAddress.val &&& 0x80 = 0x80)

/-- The address of the last endpoint of the list in category `p`, or `prior` when the list
has no endpoint in that category. -/
def lastAddress (p : libusb_endpoint_descriptor → Bool) (eps : List libusb_endpoint_descriptor)
    (prior : Nat) : Nat :=
  ((eps.filter p).getLast?.map fun ep => ep.bEndpointAddress.val).getD prior

/-- Endpoints of a device: bulk OUT 0x02, bulk IN 0x81, interrupt IN 0x83, a second bulk IN
0x85 and an isochronous IN 0x86. -/
def sampleEndpoints : List libusb_endpoint_descriptor :=
  [⟨0x02, 0x02⟩, ⟨0x81, 0x02⟩, ⟨0x83, 0x03⟩, ⟨0x85, 0x02⟩, ⟨0x86, 0x01⟩]

/-! ## The two scans side by side -/

/-- The locals of the two scans agree: same offset, same specialization count, and when the
count is positive the list of `get_device_specializations` is allocated and has that many
entries. -/
def ScansAgree (cs : CompatState) (ss : SpecState) : Prop :=
  cs.index = ss.index ∧ cs.number_of_specs = ss.num_specs ∧
  (0 < ss.num_specs → ∃ l, ss.spec_list = some l ∧ l.length = ss.num_specs)

/-! ## Discovery of one device

`is_phdc_11073_device`, `get_phdc_device_attributes` and the body of the loop of
`search_phdc_devices`, on the record and on what libusb answers; the calls that only free
or close (`libusb_close`, `libusb_release_interface`, `libusb_free_config_descriptor`) do
not change the record and are left out. The macro `PHDC_INTERFACE_CLASS` of
`usb_phdc_definitions.h` is the parameter `cls`. -/

/-- The fields of `struct libusb_interface_descriptor` that discovery reads, for the
alternate setting 0 of an interface: `extra_length` is the length of `extra` and
`bNumEndpoints` the length of `endpoint`. -/
structure libusb_interface_descriptor where
  bInterfaceClass : Byte
  extra : List Byte
  endpoint : List libusb_endpoint_descriptor
  deriving DecidableEq, Repr

/-- A device record together with the contents of the array that its `specializations`
field points to (`none` when discovery stored no array there). -/
structure DeviceEntry where
  record : usb_phdc_device
  specialization_list : Option (List Nat)
  deriving DecidableEq, Repr

/-- What libusb and the allocator answer while `search_phdc_devices` handles one device.
`config` is configuration 0 of the device, `interface[j].altsetting[0]` for each `j`, which
both `libusb_get_config_descriptor` calls return; `fresh` is the content of the slot that
`realloc` adds to the device list. -/
structure DiscoveryAnswers where
  descriptor_ret : Int
  idVendor : Nat
  idProduct : Nat
  config : List libusb_interface_descriptor
  probe_open_ret : Int
  probe_claim_ret : Int
  probe_config_ret : Int
  device_ref : Option Nat
  attr_open_ret : Int
  attr_config_ret : Int
  attr_claim_ret : Nat → Int
  specs_ptr : Nat
  name_ptr : Option Nat
  manufacturer_ptr : Option Nat
  serial_ptr : Option Nat
  fresh : usb_phdc_device

/-- The loop `for (j = 0; j < bNumInterfaces; j++)` of `is_phdc_11073_device`: the verdict of
`is_ieee11073_compatible` on the first interface of class `cls`, 0 when there is none. -/
def probe_loop (d : PhdcDefs) (cls : Nat) (fuel : Nat) :
    List libusb_interface_descriptor → Except Fault Nat
  | [] => Except.ok 0
  | i :: rest =>
    if i.bInterfaceClass.val = cls then is_ieee11073_compatible d i.extra fuel
    else probe_loop d cls fuel rest

/-- The function `is_phdc_11073_device`. -/
def is_phdc_11073_device (d : PhdcDefs) (cls : Nat) (a : DiscoveryAnswers) (fuel : Nat) :
    Except Fault Nat :=
  if a.probe_open_ret < 0 then Except.ok 0
  else if a.probe_claim_ret < 0 then Except.ok 0
  else if a.probe_config_ret < 0 then Except.ok 0
  else probe_loop d cls fuel a.config

/-- The loop `for (j = 0; j < bNumInterfaces; j++)` of `get_phdc_device_attributes`, from
interface `j`: whether the function returned from inside the loop (a failed claim), and the
entry. -/
def attributes_loop (d : PhdcDefs) (cls : Nat) (a : DiscoveryAnswers) (fuel : Nat) :
    List libusb_interface_descriptor → Nat → DeviceEntry → Except Fault (Bool × DeviceEntry)
  | [], _, e => Except.ok (false, e)
  | i :: rest, j, e =>
    if a.attr_claim_ret j ≠ 0 then Except.ok (true, e)
    else if i.bInterfaceClass.val = cls then
      (get_device_specializations d i.extra 0 fuel).bind fun r =>
      let dev1 := { e.record with health_interface := j }
      let dev2 := { dev1 with specializations := r.1.map fun _ => a.specs_ptr }
      let dev3 := { dev2 with number_of_specializations := r.2 }
      Except.ok (false, ⟨classify_endpoints dev3 i.endpoint, r.1⟩)
    else attributes_loop d cls a fuel rest (j + 1) e

/-- The function `get_phdc_device_attributes`: it returns early, leaving the record as it
was, when `libusb_open`, `libusb_get_config_descriptor` or a `libusb_claim_interface`
fails; otherwise the ids and the three strings are stored after the loop. -/
def get_phdc_device_attributes (d : PhdcDefs) (cls : Nat) (a : DiscoveryAnswers) (fuel : Nat)
    (e : DeviceEntry) : Except Fault DeviceEntry :=
  if a.attr_open_ret ≠ 0 then Except.ok e
  else if a.attr_config_ret ≠ 0 then Except.ok e
  else
    (attributes_loop d cls a fuel a.config 0 e).bind fun r =>
    if r.1 then Except.ok r.2
    else
      Except.ok { r.2 with
        record := { r.2.record with
          vendor_id := a.idVendor
          product_id := a.idProduct
          name := a.name_ptr
          manufacturer := a.manufacturer_ptr
          serial_number := a.serial_ptr } }

/-- The body of the `while` loop of `search_phdc_devices` for one device: the entry added to
the device list, if one is. The record is added, with its device reference, before
`get_phdc_device_attributes` is called. -/
def discover_device (d : PhdcDefs) (cls : Nat) (a : DiscoveryAnswers) (fuel : Nat) :
    Except Fault (Option DeviceEntry) :=
  if a.descriptor_ret < 0 then Except.ok none
  else
    (is_phdc_11073_device d cls a fuel).bind fun v =>
    if v = 1 then
      (get_phdc_device_attributes d cls a fuel
        ⟨{ a.fresh with usb_device := a.device_ref }, none⟩).bind fun e =>
      Except.ok (some e)
    else Except.ok none

/-- The function `search_phdc_devices` over the devices of the bus, one `DiscoveryAnswers`
for each: the device list afterwards. -/
def search_phdc_devices (d : PhdcDefs) (cls : Nat) (fuel : Nat) :
    List DiscoveryAnswers → List DeviceEntry → Except Fault (List DeviceEntry)
  | [], device_list => Except.ok device_list
  | a :: rest, device_list =>
    (discover_device d cls a fuel).bind fun r =>
    match r with
    | some e => search_phdc_devices d cls fuel rest (device_list ++ [e])
    | none => search_phdc_devices d cls fuel rest device_list

/-- The invariant of a device entry: a positive `number_of_specializations`, equal to the
length of the specialization list, which is allocated. -/
def SpecializationsFilled (e : DeviceEntry) : Prop :=
  0 < e.record.number_of_specializations ∧ e.record.specializations ≠ none ∧
  ∃ l, e.specialization_list = some l ∧ l.length = e.record.number_of_specializations

/-- Every libusb call of `get_phdc_device_attributes` succeeds. -/
def AttributeCallsSucceed (a : DiscoveryAnswers) : Prop :=
  a.attr_open_ret = 0 ∧ a.attr_config_ret = 0 ∧ ∀ j, a.attr_claim_ret j = 0

/-- A slot of the device list as `realloc` may leave it: nothing assigned. -/
def freshSlot : usb_phdc_device :=
  { usb_device_context := none, usb_device_handle := none, usb_device := none,
    vendor_id := 0, product_id := 0, health_interface := 0,
    ep_bulk_in := 0, ep_bulk_out := 0, ep_interrupt_in := 0,
    name := none, manufacturer := none, serial_number := none,
    specializations := none, number_of_specializations := 0,
    file_descriptors := none, file_descriptors_count := 0 }

/-- A composite device: a HID interface, a mass-storage interface, and a PHDC interface
(class 0x0F) whose extra bytes are `sampleEntries` and whose endpoints are
`sampleEndpoints`. -/
def compositeConfig : List libusb_interface_descriptor :=
  [⟨0x03, [], []⟩, ⟨0x08, [], []⟩, ⟨0x0F, sampleEntries.flatten, sampleEndpoints⟩]

/-- Answers for the composite device in which every call succeeds. -/
def allSucceed : DiscoveryAnswers :=
  { descriptor_ret := 0, idVendor := 0x1234, idProduct := 0x5678, config := compositeConfig,
    probe_open_ret := 0, probe_claim_ret := 0, probe_config_ret := 0, device_ref := some 7,
    attr_open_ret := 0, attr_config_ret := 0, attr_claim_ret := fun _ => 0,
    specs_ptr := 103, name_ptr := some 100, manufacturer_ptr := some 101,
    serial_ptr := some 102, fresh := freshSlot }

/-- Answers for the composite device in which the claim of interface 1 fails with
`LIBUSB_ERROR_BUSY` (-6) in `get_phdc_device_attributes`; `is_phdc_11073_device` claims
interface 0 only. -/
def claimOfInterfaceOneFails : DiscoveryAnswers :=
  { allSucceed with attr_claim_ret := fun j => if j = 1 then -6 else 0 }

/-- A three-byte buffer whose second entry, at offset 2, has length byte 0 and no type
byte inside the buffer. -/
def zeroLengthAtEndBuffer : List Byte := [0x02, 0x00, 0x00]

/-! ### Basic facts about reads -/

theorem and_0xFF (b : Byte) : b.val &&& 0xFF = b.val := by
  have h : b.val &&& (2 ^ 8 - 1) = b.val % 2 ^ 8 := Nat.and_pow_two_sub_one_eq_mod _ _
  have hb : b.val < 256 := b.isLt
  simp only [Nat.reducePow, Nat.add_one_sub_one] at h
  rw [h]; exact Nat.mod_eq_of_lt hb

theorem byteAt_lt (v : List Byte) (k : Nat) : byteAt v k < 256 := (v.getD k 0).isLt

theorem byteAt_and (v : List Byte) (k : Nat) : byteAt v k &&& 0xFF = byteAt v k :=
  and_0xFF _

theorem rd_append (pre v : List Byte) (k : Nat) (hk : k < v.length) :
    rd (pre ++ v) (pre.length + k) = Except.ok (byteAt v k) := by
  unfold rd byteAt
  rw [List.getElem?_append_right (Nat.le_add_right _ _)]
  simp [List.getD_eq_getElem?_getD, List.getElem?_eq_getElem hk]

theorem rd_oob (buffer : List Byte) (i : Nat) (hi : buffer.length ≤ i) :
    rd buffer i = Except.error (Fault.out_of_bounds i) := by
  unfold rd
  rw [List.getElem?_eq_none hi]

theorem rd_inb (buffer : List Byte) (i : Nat) (hi : i < buffer.length) :
    rd buffer i = Except.ok (byteAt buffer i) := by
  have := rd_append [] buffer i hi
  simpa using this

/-! ### The scans on a tiled buffer -/

theorem compat_body_view (d : PhdcDefs) (pre v : List Byte) (s : CompatState)
    (hs : s.index = pre.length) (hv : 2 ≤ v.length) (hb : CompatInBounds d v) :
    compat_body d (pre ++ v) s =
      Except.ok ⟨pre.length + byteAt v 0,
        (cstep d (s.number_of_specs, s.is_ieee11073) v).1,
        (cstep d (s.number_of_specs, s.is_ieee11073) v).2⟩ := by
  obtain ⟨i, n, c⟩ := s
  simp only at hs
  subst hs
  have h0 : rd (pre ++ v) pre.length = Except.ok (byteAt v 0) := by
    simpa using rd_append pre v 0 (by omega)
  have h1 : rd (pre ++ v) (pre.length + 1) = Except.ok (byteAt v 1) :=
    rd_append pre v 1 (by omega)
  unfold compat_body cstep
  simp only [h0, h1, Except.bind, byteAt_and, tagOf, valueOf, countOf]
  by_cases hc : byteAt v 1 = d.PHDC_CLASSFUNCTION_DESCRIPTOR
  · have h2 : rd (pre ++ v) (pre.length + 2) = Except.ok (byteAt v 2) :=
      rd_append pre v 2 (by have := hb.1 hc; omega)
    simp only [hc, if_true, h2, byteAt_and]
    by_cases hm : byteAt v 2 = d.PHDC_11073_20601
    · simp [hm]
    · by_cases hvn : byteAt v 2 = d.PHDC_VENDOR
      · rw [hvn] at hm
        simp [hvn, Ne.symm (Ne.symm hm)]
      · simp [hm, hvn]
  · simp only [hc, if_false]
    by_cases hf : byteAt v 1 = d.PHDC_11073PHD_FUNCTION_DESCRIPTOR
    · have h3 : rd (pre ++ v) (pre.length + 3) = Except.ok (byteAt v 3) :=
        rd_append pre v 3 (by have := hb.2 hf; omega)
      simp [hf, h3, byteAt_and]
    · simp [hf]

theorem wfEntry_byte0 (e rest : List Byte) (he : WfEntry e) :
    byteAt (e ++ rest) 0 = e.length := by
  obtain ⟨h2, hh⟩ := he
  cases e with
  | nil => simp at h2
  | cons a t =>
    simp only [List.head?_cons, Option.map_some', Option.some.injEq] at hh
    simp [byteAt, hh]

theorem flatten_pos_of_tiled (es : List (List Byte)) (hT : Tiled es) (hne : es ≠ []) :
    0 < es.flatten.length := by
  cases es with
  | nil => exact absurd rfl hne
  | cons e rest =>
    have := (hT e (List.mem_cons_self _ _)).1
    simp only [List.flatten_cons, List.length_append]
    omega

theorem compat_loop_tiled (d : PhdcDefs) (es : List (List Byte)) :
    ∀ (pre : List Byte) (s : CompatState) (fuel : Nat),
      Tiled es → es ≠ [] → (∀ v ∈ views es, CompatInBounds d v) →
      s.index = pre.length → es.length ≤ fuel →
      compat_loop d (pre ++ es.flatten) fuel s =
        Except.ok ⟨pre.length + es.flatten.length,
          (List.foldl (cstep d) (s.number_of_specs, s.is_ieee11073) (views es)).1,
          (List.foldl (cstep d) (s.number_of_specs, s.is_ieee11073) (views es)).2⟩ := by
  induction es with
  | nil => intro _ _ _ _ h; exact absurd rfl h
  | cons e rest ih =>
    intro pre s fuel hT _ hB hs hfuel
    have hwe : WfEntry e := hT e (List.mem_cons_self _ _)
    have hTr : Tiled rest := fun x hx => hT x (List.mem_cons_of_mem _ hx)
    have hBr : ∀ v ∈ views rest, CompatInBounds d v := fun v hv =>
      hB v (by simp [views, hv])
    have hBe : CompatInBounds d (e ++ rest.flatten) := hB _ (by simp [views])
    cases fuel with
    | zero => simp at hfuel
    | succ fuel =>
      have hbody := compat_body_view d pre (e ++ rest.flatten) s hs
        (by have := hwe.1; simp only [List.length_append]; omega) hBe
      rw [wfEntry_byte0 e _ hwe] at hbody
      simp only [List.flatten_cons, compat_loop, hbody, Except.bind, views, List.foldl_cons]
      by_cases hr : rest = []
      · subst hr
        simp [views]
      · have hpos := flatten_pos_of_tiled rest hTr hr
        have hlt : pre.length + e.length < (pre ++ (e ++ rest.flatten)).length := by
          simp only [List.length_append]; omega
        simp only [hlt, if_true]
        have := ih (pre ++ e) ⟨pre.length + e.length,
          (cstep d (s.number_of_specs, s.is_ieee11073) (e ++ rest.flatten)).1,
          (cstep d (s.number_of_specs, s.is_ieee11073) (e ++ rest.flatten)).2⟩ fuel hTr hr hBr
          (by simp) (by simp at hfuel; omega)
        simp only [List.append_assoc, List.length_append] at this
        rw [this]
        simp [Nat.add_assoc]

theorem read_specs_view (pre v : List Byte) :
    ∀ (k i : Nat), 2 * (i + k) + 4 ≤ v.length →
      read_specs (pre ++ v) pre.length i k = Except.ok (codesFrom v i k) := by
  intro k
  induction k with
  | zero => intro i _; rfl
  | succ k ih =>
    intro i hlen
    have hlo : rd (pre ++ v) (2 * i + pre.length + 4) = Except.ok (byteAt v (2 * i + 4)) := by
      have := rd_append pre v (2 * i + 4) (by omega)
      rwa [show pre.length + (2 * i + 4) = 2 * i + pre.length + 4 by omega] at this
    have hhi : rd (pre ++ v) (2 * i + pre.length + 5) = Except.ok (byteAt v (2 * i + 5)) := by
      have := rd_append pre v (2 * i + 5) (by omega)
      rwa [show pre.length + (2 * i + 5) = 2 * i + pre.length + 5 by omega] at this
    simp only [read_specs, hlo, hhi, Except.bind, ih (i + 1) (by omega), codesFrom]

theorem specs_body_view (d : PhdcDefs) (pre v : List Byte) (s : SpecState)
    (hs : s.index = pre.length) (hv : 2 ≤ v.length) (hb : SpecsInBounds d v) :
    specs_body d (pre ++ v) s =
      Except.ok ⟨pre.length + byteAt v 0,
        (sstep d (s.num_specs, s.spec_list) v).1,
        (sstep d (s.num_specs, s.spec_list) v).2⟩ := by
  obtain ⟨i, n, l⟩ := s
  simp only at hs
  subst hs
  have h0 : rd (pre ++ v) pre.length = Except.ok (byteAt v 0) := by
    simpa using rd_append pre v 0 (by omega)
  have h1 : rd (pre ++ v) (pre.length + 1) = Except.ok (byteAt v 1) :=
    rd_append pre v 1 (by omega)
  unfold specs_body sstep
  simp only [h0, h1, Except.bind, tagOf, countOf]
  by_cases hf : byteAt v 1 = d.PHDC_11073PHD_FUNCTION_DESCRIPTOR
  · have hlen := hb hf
    simp only [countOf] at hlen
    have h3 : rd (pre ++ v) (pre.length + 3) = Except.ok (byteAt v 3) :=
      rd_append pre v 3 (by omega)
    simp only [hf, if_true, h3]
    by_cases hn : byteAt v 3 > 0
    · simp [hn, read_specs_view pre v (byteAt v 3) 0 (by omega)]
    · simp [hn]
  · simp [hf]

theorem specs_loop_tiled (d : PhdcDefs) (es : List (List Byte)) :
    ∀ (pre : List Byte) (s : SpecState) (fuel : Nat),
      Tiled es → es ≠ [] → (∀ v ∈ views es, SpecsInBounds d v) →
      s.index = pre.length → es.length ≤ fuel →
      specs_loop d (pre ++ es.flatten) fuel s =
        Except.ok ⟨pre.length + es.flatten.length,
          (List.foldl (sstep d) (s.num_specs, s.spec_list) (views es)).1,
          (List.foldl (sstep d) (s.num_specs, s.spec_list) (views es)).2⟩ := by
  induction es with
  | nil => intro _ _ _ _ h; exact absurd rfl h
  | cons e rest ih =>
    intro pre s fuel hT _ hB hs hfuel
    have hwe : WfEntry e := hT e (List.mem_cons_self _ _)
    have hTr : Tiled rest := fun x hx => hT x (List.mem_cons_of_mem _ hx)
    have hBr : ∀ v ∈ views rest, SpecsInBounds d v := fun v hv =>
      hB v (by simp [views, hv])
    have hBe : SpecsInBounds d (e ++ rest.flatten) := hB _ (by simp [views])
    cases fuel with
    | zero => simp at hfuel
    | succ fuel =>
      have hbody := specs_body_view d pre (e ++ rest.flatten) s hs
        (by have := hwe.1; simp only [List.length_append]; omega) hBe
      rw [wfEntry_byte0 e _ hwe] at hbody
      simp only [List.flatten_cons, specs_loop, hbody, Except.bind, views, List.foldl_cons]
      by_cases hr : rest = []
      · subst hr
        simp [views]
      · have hpos := flatten_pos_of_tiled rest hTr hr
        have hlt : pre.length + e.length < (pre ++ (e ++ rest.flatten)).length := by
          simp only [List.length_append]; omega
        simp only [hlt, if_true]
        have := ih (pre ++ e) ⟨pre.length + e.length,
          (sstep d (s.num_specs, s.spec_list) (e ++ rest.flatten)).1,
          (sstep d (s.num_specs, s.spec_list) (e ++ rest.flatten)).2⟩ fuel hTr hr hBr
          (by simp) (by simp at hfuel; omega)
        simp only [List.append_assoc, List.length_append] at this
        rw [this]
        simp [Nat.add_assoc]

theorem length_le_flatten_of_tiled (es : List (List Byte)) (hT : Tiled es) :
    es.length ≤ es.flatten.length := by
  induction es with
  | nil => simp
  | cons e rest ih =>
    have := (hT e (List.mem_cons_self _ _)).1
    have := ih (fun x hx => hT x (List.mem_cons_of_mem _ hx))
    simp only [List.flatten_cons, List.length_append, List.length_cons]
    omega

/-- On a tiled buffer whose reads are in bounds, `is_ieee11073_compatible` returns, and its
verdict is the fold of `cstep` over the entries. -/
theorem is_ieee11073_compatible_tiled (d : PhdcDefs) (es : List (List Byte)) (fuel : Nat)
    (hT : Tiled es) (hB : ∀ v ∈ views es, CompatInBounds d v)
    (hfuel : es.flatten.length ≤ fuel) :
    is_ieee11073_compatible d es.flatten fuel =
      Except.ok (if (List.foldl (cstep d) (0, 0) (views es)).1 > 0 ∧
        (List.foldl (cstep d) (0, 0) (views es)).2 = 1 then 1 else 0) := by
  unfold is_ieee11073_compatible
  by_cases hne : es = []
  · subst hne; simp [views, Except.bind]
  · have hpos := flatten_pos_of_tiled es hT hne
    have h := compat_loop_tiled d es [] ⟨0, 0, 0⟩ fuel hT hne hB rfl
      (le_trans (length_le_flatten_of_tiled es hT) hfuel)
    simp only [List.nil_append] at h
    simp only [gt_iff_lt, hpos, if_true, h, Except.bind]

/-- On a tiled buffer whose reads are in bounds, `get_device_specializations` returns, and
its results are the fold of `sstep` over the entries. -/
theorem get_device_specializations_tiled (d : PhdcDefs) (es : List (List Byte))
    (num_specs fuel : Nat)
    (hT : Tiled es) (hB : ∀ v ∈ views es, SpecsInBounds d v)
    (hfuel : es.flatten.length ≤ fuel) :
    get_device_specializations d es.flatten num_specs fuel =
      Except.ok ((List.foldl (sstep d) (num_specs, none) (views es)).2,
        (List.foldl (sstep d) (num_specs, none) (views es)).1) := by
  unfold get_device_specializations
  by_cases hne : es = []
  · subst hne; simp [views, Except.bind]
  · have hpos := flatten_pos_of_tiled es hT hne
    have h := specs_loop_tiled d es [] ⟨0, num_specs, none⟩ fuel hT hne hB rfl
      (le_trans (length_le_flatten_of_tiled es hT) hfuel)
    simp only [List.nil_append] at h
    simp only [gt_iff_lt, hpos, if_true, h, Except.bind]

/-! ### The scans on complete entries followed by a final entry that may be cut short -/

theorem length_flatten_concat (es : List (List Byte)) (last : List Byte) :
    (es ++ [last]).flatten.length = es.flatten.length + last.length := by
  simp

theorem compat_loop_trunc (d : PhdcDefs) (last : List Byte) (es : List (List Byte)) :
    ∀ (pre : List Byte) (s : CompatState) (fuel : Nat),
      Tiled es → TruncEntry last → (∀ v ∈ views (es ++ [last]), CompatInBounds d v) →
      s.index = pre.length → es.length + 1 ≤ fuel →
      compat_loop d (pre ++ (es ++ [last]).flatten) fuel s =
        Except.ok ⟨pre.length + es.flatten.length + byteAt last 0,
          (List.foldl (cstep d) (s.number_of_specs, s.is_ieee11073)
            (views (es ++ [last]))).1,
          (List.foldl (cstep d) (s.number_of_specs, s.is_ieee11073)
            (views (es ++ [last]))).2⟩ := by
  induction es with
  | nil =>
    intro pre s fuel _ hL hB hs hfuel
    cases fuel with
    | zero => simp at hfuel
    | succ fuel =>
      have hBe : CompatInBounds d last := by
        have := hB (last ++ ([] : List (List Byte)).flatten) (by simp [views])
        simpa using this
      have hbody := compat_body_view d pre last s hs hL.1 hBe
      have hge : ¬ pre.length + byteAt last 0 < (pre ++ last).length := by
        have := hL.2
        simp only [List.length_append, byteAt]; omega
      simp only [List.nil_append, List.flatten_cons, List.flatten_nil, List.append_nil,
        compat_loop, hbody, Except.bind, views, List.foldl_cons, List.foldl_nil,
        List.length_nil, Nat.add_zero]
      rw [if_neg hge]
  | cons e rest ih =>
    intro pre s fuel hT hL hB hs hfuel
    have hwe : WfEntry e := hT e (List.mem_cons_self _ _)
    have hTr : Tiled rest := fun x hx => hT x (List.mem_cons_of_mem _ hx)
    have hBr : ∀ v ∈ views (rest ++ [last]), CompatInBounds d v := fun v hv =>
      hB v (by simp only [List.cons_append, views, List.mem_cons]; exact Or.inr hv)
    have hBe : CompatInBounds d (e ++ (rest ++ [last]).flatten) :=
      hB _ (by simp only [List.cons_append, views, List.mem_cons]; exact Or.inl rfl)
    cases fuel with
    | zero => simp at hfuel
    | succ fuel =>
      have hbody := compat_body_view d pre (e ++ (rest ++ [last]).flatten) s hs
        (by have := hwe.1; simp only [List.length_append]; omega) hBe
      rw [wfEntry_byte0 e _ hwe] at hbody
      have hpos : 0 < (rest ++ [last]).flatten.length := by
        have := hL.1
        rw [length_flatten_concat]; omega
      have hlt : pre.length + e.length < (pre ++ (e ++ (rest ++ [last]).flatten)).length := by
        simp only [List.length_append] at hpos ⊢; omega
      simp only [List.cons_append, List.flatten_cons, compat_loop, hbody, Except.bind, views,
        List.foldl_cons]
      rw [if_pos hlt]
      have := ih (pre ++ e) ⟨pre.length + e.length,
        (cstep d (s.number_of_specs, s.is_ieee11073) (e ++ (rest ++ [last]).flatten)).1,
        (cstep d (s.number_of_specs, s.is_ieee11073) (e ++ (rest ++ [last]).flatten)).2⟩
        fuel hTr hL hBr (by simp) (by simp at hfuel; omega)
      simp only [List.append_assoc, List.length_append] at this
      rw [this]
      simp [Nat.add_assoc]

theorem specs_loop_trunc (d : PhdcDefs) (last : List Byte) (es : List (List Byte)) :
    ∀ (pre : List Byte) (s : SpecState) (fuel : Nat),
      Tiled es → TruncEntry last → (∀ v ∈ views (es ++ [last]), SpecsInBounds d v) →
      s.index = pre.length → es.length + 1 ≤ fuel →
      specs_loop d (pre ++ (es ++ [last]).flatten) fuel s =
        Except.ok ⟨pre.length + es.flatten.length + byteAt last 0,
          (List.foldl (sstep d) (s.num_specs, s.spec_list) (views (es ++ [last]))).1,
          (List.foldl (sstep d) (s.num_specs, s.spec_list) (views (es ++ [last]))).2⟩ := by
  induction es with
  | nil =>
    intro pre s fuel _ hL hB hs hfuel
    cases fuel with
    | zero => simp at hfuel
    | succ fuel =>
      have hBe : SpecsInBounds d last := by
        have := hB (last ++ ([] : List (List Byte)).flatten) (by simp [views])
        simpa using this
      have hbody := specs_body_view d pre last s hs hL.1 hBe
      have hge : ¬ pre.length + byteAt last 0 < (pre ++ last).length := by
        have := hL.2
        simp only [List.length_append, byteAt]; omega
      simp only [List.nil_append, List.flatten_cons, List.flatten_nil, List.append_nil,
        specs_loop, hbody, Except.bind, views, List.foldl_cons, List.foldl_nil,
        List.length_nil, Nat.add_zero]
      rw [if_neg hge]
  | cons e rest ih =>
    intro pre s fuel hT hL hB hs hfuel
    have hwe : WfEntry e := hT e (List.mem_cons_self _ _)
    have hTr : Tiled rest := fun x hx => hT x (List.mem_cons_of_mem _ hx)
    have hBr : ∀ v ∈ views (rest ++ [last]), SpecsInBounds d v := fun v hv =>
      hB v (by simp only [List.cons_append, views, List.mem_cons]; exact Or.inr hv)
    have hBe : SpecsInBounds d (e ++ (rest ++ [last]).flatten) :=
      hB _ (by simp only [List.cons_append, views, List.mem_cons]; exact Or.inl rfl)
    cases fuel with
    | zero => simp at hfuel
    | succ fuel =>
      have hbody := specs_body_view d pre (e ++ (rest ++ [last]).flatten) s hs
        (by have := hwe.1; simp only [List.length_append]; omega) hBe
      rw [wfEntry_byte0 e _ hwe] at hbody
      have hpos : 0 < (rest ++ [last]).flatten.length := by
        have := hL.1
        rw [length_flatten_concat]; omega
      have hlt : pre.length + e.length < (pre ++ (e ++ (rest ++ [last]).flatten)).length := by
        simp only [List.length_append] at hpos ⊢; omega
      simp only [List.cons_append, List.flatten_cons, specs_loop, hbody, Except.bind, views,
        List.foldl_cons]
      rw [if_pos hlt]
      have := ih (pre ++ e) ⟨pre.length + e.length,
        (sstep d (s.num_specs, s.spec_list) (e ++ (rest ++ [last]).flatten)).1,
        (sstep d (s.num_specs, s.spec_list) (e ++ (rest ++ [last]).flatten)).2⟩
        fuel hTr hL hBr (by simp) (by simp at hfuel; omega)
      simp only [List.append_assoc, List.length_append] at this
      rw [this]
      simp [Nat.add_assoc]

/-- On complete entries followed by a final entry that may be cut short, with its reads in
bounds, `is_ieee11073_compatible` returns the fold of `cstep` over the entries. -/
theorem is_ieee11073_compatible_trunc (d : PhdcDefs) (es : List (List Byte))
    (last : List Byte) (fuel : Nat)
    (hT : Tiled es) (hL : TruncEntry last)
    (hB : ∀ v ∈ views (es ++ [last]), CompatInBounds d v)
    (hfuel : (es ++ [last]).flatten.length ≤ fuel) :
    is_ieee11073_compatible d (es ++ [last]).flatten fuel =
      Except.ok (if (List.foldl (cstep d) (0, 0) (views (es ++ [last]))).1 > 0 ∧
        (List.foldl (cstep d) (0, 0) (views (es ++ [last]))).2 = 1 then 1 else 0) := by
  unfold is_ieee11073_compatible
  have hlen := length_flatten_concat es last
  have hpos : (es ++ [last]).flatten.length > 0 := by have := hL.1; omega
  have h := compat_loop_trunc d last es [] ⟨0, 0, 0⟩ fuel hT hL hB rfl
    (by have := length_le_flatten_of_tiled es hT; have := hL.1; omega)
  simp only [List.nil_append] at h
  simp only [hpos, if_true, h, Except.bind]

/-- On complete entries followed by a final entry that may be cut short, with its reads in
bounds, `get_device_specializations` returns the fold of `sstep` over the entries. -/
theorem get_device_specializations_trunc (d : PhdcDefs) (es : List (List Byte))
    (last : List Byte) (num_specs fuel : Nat)
    (hT : Tiled es) (hL : TruncEntry last)
    (hB : ∀ v ∈ views (es ++ [last]), SpecsInBounds d v)
    (hfuel : (es ++ [last]).flatten.length ≤ fuel) :
    get_device_specializations d (es ++ [last]).flatten num_specs fuel =
      Except.ok ((List.foldl (sstep d) (num_specs, none) (views (es ++ [last]))).2,
        (List.foldl (sstep d) (num_specs, none) (views (es ++ [last]))).1) := by
  unfold get_device_specializations
  have hlen := length_flatten_concat es last
  have hpos : (es ++ [last]).flatten.length > 0 := by have := hL.1; omega
  have h := specs_loop_trunc d last es [] ⟨0, num_specs, none⟩ fuel hT hL hB rfl
    (by have := length_le_flatten_of_tiled es hT; have := hL.1; omega)
  simp only [List.nil_append] at h
  simp only [hpos, if_true, h, Except.bind]

/-! ### The folds in closed form -/

theorem lastCountPositive_iff (d : PhdcDefs) (vs : List (List Byte)) :
    LastCountPositive d vs ↔ 0 < lastCount d vs := by
  unfold LastCountPositive lastCount
  cases h : (functionDescriptors d vs).getLast? with
  | none => simp
  | some f => simp

theorem getLast?_filter_concat {α : Type} (p : α → Bool) (vs : List α) (v : α) :
    ((vs ++ [v]).filter p).getLast? = if p v then some v else (vs.filter p).getLast? := by
  rw [List.filter_append]
  by_cases h : p v
  · simp [List.filter_cons, h]
  · simp [List.filter_cons, h]

theorem foldl_cstep_eq (d : PhdcDefs)
    (hd : d.PHDC_CLASSFUNCTION_DESCRIPTOR ≠ d.PHDC_11073PHD_FUNCTION_DESCRIPTOR)
    (vs : List (List Byte)) :
    List.foldl (cstep d) (0, 0) vs =
      (lastCount d vs, if LastMarkerIs20601 d vs then 1 else 0) := by
  induction vs using List.reverseRecOn with
  | nil => simp [lastCount, LastMarkerIs20601, markerEntries, functionDescriptors]
  | append_singleton vs v ih =>
    rw [List.foldl_append, ih]
    simp only [List.foldl_cons, List.foldl_nil, cstep, lastCount, LastMarkerIs20601,
      markerEntries, functionDescriptors, getLast?_filter_concat]
    by_cases hc : tagOf v = d.PHDC_CLASSFUNCTION_DESCRIPTOR
    · have hf : ¬ tagOf v = d.PHDC_11073PHD_FUNCTION_DESCRIPTOR := fun h => hd (hc ▸ h)
      have hdf : decide (tagOf v = d.PHDC_11073PHD_FUNCTION_DESCRIPTOR) = false := by
        simp [hf]
      rw [if_pos hc, hdf]
      by_cases hm : valueOf v = d.PHDC_11073_20601
      · have hdm : decide (tagOf v = d.PHDC_CLASSFUNCTION_DESCRIPTOR ∧
            (valueOf v = d.PHDC_11073_20601 ∨ valueOf v = d.PHDC_VENDOR)) = true := by
          simp [hc, hm]
        rw [if_pos hm, hdm]
        simp [hm]
      · by_cases hv : valueOf v = d.PHDC_VENDOR
        · have hdm : decide (tagOf v = d.PHDC_CLASSFUNCTION_DESCRIPTOR ∧
              (valueOf v = d.PHDC_11073_20601 ∨ valueOf v = d.PHDC_VENDOR)) = true := by
            simp [hc, hv]
          rw [if_neg hm, if_pos hv, hdm]
          simp [hm]
        · have hdm : decide (tagOf v = d.PHDC_CLASSFUNCTION_DESCRIPTOR ∧
              (valueOf v = d.PHDC_11073_20601 ∨ valueOf v = d.PHDC_VENDOR)) = false := by
            simp [hm, hv]
          rw [if_neg hm, if_neg hv, hdm]
          simp
    · have hdm : decide (tagOf v = d.PHDC_CLASSFUNCTION_DESCRIPTOR ∧
          (valueOf v = d.PHDC_11073_20601 ∨ valueOf v = d.PHDC_VENDOR)) = false := by
        simp [hc]
      rw [if_neg hc, hdm]
      by_cases hf : tagOf v = d.PHDC_11073PHD_FUNCTION_DESCRIPTOR
      · have hdf : decide (tagOf v = d.PHDC_11073PHD_FUNCTION_DESCRIPTOR) = true := by
          simp [hf]
        rw [if_pos hf, hdf]
        simp
      · have hdf : decide (tagOf v = d.PHDC_11073PHD_FUNCTION_DESCRIPTOR) = false := by
          simp [hf]
        rw [if_neg hf, hdf]
        simp

theorem foldl_filter_inert {α β : Type} (f : β → α → β) (p : α → Bool)
    (hf : ∀ acc v, p v = false → f acc v = acc) (vs : List α) :
    ∀ acc, List.foldl f acc vs = List.foldl f acc (vs.filter p) := by
  induction vs with
  | nil => intro acc; rfl
  | cons v vs ih =>
    intro acc
    by_cases h : p v
    · simp [List.filter_cons, h, ih]
    · have h2 : p v = false := by simpa using h
      simp [List.filter_cons, h2, hf acc v h2, ih]

theorem foldl_sstep_functionDescriptors (d : PhdcDefs) (vs : List (List Byte))
    (acc : Nat × Option (List Nat)) :
    List.foldl (sstep d) acc vs = List.foldl (sstep d) acc (functionDescriptors d vs) := by
  unfold functionDescriptors
  apply foldl_filter_inert
  intro a v hv
  have : ¬ tagOf v = d.PHDC_11073PHD_FUNCTION_DESCRIPTOR := by simpa using hv
  simp [sstep, this]

theorem foldl_cstep_snd_zero (d : PhdcDefs) (vs : List (List Byte)) :
    ∀ (n : Nat),
      (∀ v ∈ vs, tagOf v = d.PHDC_CLASSFUNCTION_DESCRIPTOR → valueOf v ≠ d.PHDC_11073_20601) →
      (List.foldl (cstep d) (n, 0) vs).2 = 0 := by
  induction vs with
  | nil => intro n _; rfl
  | cons v vs ih =>
    intro n h
    have hv := h v (List.mem_cons_self _ _)
    have hr : ∀ w ∈ vs, tagOf w = d.PHDC_CLASSFUNCTION_DESCRIPTOR →
        valueOf w ≠ d.PHDC_11073_20601 := fun w hw => h w (List.mem_cons_of_mem _ hw)
    rw [List.foldl_cons]
    have hstep : ∃ m, cstep d (n, 0) v = (m, 0) := by
      unfold cstep
      by_cases hc : tagOf v = d.PHDC_CLASSFUNCTION_DESCRIPTOR
      · have hm := hv hc
        rw [if_pos hc, if_neg hm]
        by_cases hvn : valueOf v = d.PHDC_VENDOR
        · exact ⟨n, by rw [if_pos hvn]⟩
        · exact ⟨n, by rw [if_neg hvn]⟩
      · rw [if_neg hc]
        by_cases hf : tagOf v = d.PHDC_11073PHD_FUNCTION_DESCRIPTOR
        · exact ⟨countOf v, by rw [if_pos hf]⟩
        · exact ⟨n, by rw [if_neg hf]⟩
    obtain ⟨m, hm⟩ := hstep
    rw [hm]
    exact ih m hr

theorem length_encodeCodes (codes : List Nat) :
    (encodeCodes codes).length = 2 * codes.length := by
  induction codes with
  | nil => rfl
  | cons c cs ih => simp [encodeCodes, le16, ih]; omega

theorem byteAt_append_left (a b : List Byte) (k : Nat) (hk : k < a.length) :
    byteAt (a ++ b) k = byteAt a k := by
  unfold byteAt
  simp [List.getD_eq_getElem?_getD, List.getElem?_append_left hk]

theorem byteAt_append_right (a b : List Byte) (k : Nat) :
    byteAt (a ++ b) (a.length + k) = byteAt b k := by
  unfold byteAt
  simp [List.getD_eq_getElem?_getD, List.getElem?_append_right]

/-- Reading back the codes written by `encodeCodes`. -/
theorem codesFrom_encodeCodes (tail : List Byte) (codes : List Nat) :
    ∀ (hd : List Byte) (i : Nat), hd.length = 2 * i + 4 → (∀ c ∈ codes, c < 65536) →
      codesFrom (hd ++ (encodeCodes codes ++ tail)) i codes.length = codes := by
  induction codes with
  | nil => intro _ _ _ _; rfl
  | cons c cs ih =>
    intro hd i hlen hc
    have hc0 : c < 65536 := hc c (List.mem_cons_self _ _)
    have hlo : byteAt (hd ++ (encodeCodes (c :: cs) ++ tail)) (2 * i + 4) = c % 256 := by
      have := byteAt_append_right hd (encodeCodes (c :: cs) ++ tail) 0
      rw [Nat.add_zero, hlen] at this
      rw [this]
      simp [encodeCodes, le16, byteAt, Fin.ofNat]
    have hhi : byteAt (hd ++ (encodeCodes (c :: cs) ++ tail)) (2 * i + 5) = c / 256 := by
      have := byteAt_append_right hd (encodeCodes (c :: cs) ++ tail) 1
      rw [hlen] at this
      rw [show 2 * i + 5 = 2 * i + 4 + 1 by omega, this]
      simp only [encodeCodes, le16, byteAt, Fin.ofNat, List.cons_append, List.nil_append,
        List.getD_cons_succ, List.getD_cons_zero]
      exact Nat.mod_eq_of_lt (by omega)
    have hrest := ih (hd ++ le16 c) (i + 1) (by simp [le16, hlen]; omega)
      (fun x hx => hc x (List.mem_cons_of_mem _ hx))
    simp only [List.length_cons, codesFrom, hlo, hhi]
    have hshape : hd ++ (encodeCodes (c :: cs) ++ tail) =
        (hd ++ le16 c) ++ (encodeCodes cs ++ tail) := by
      simp [encodeCodes, List.append_assoc]
    rw [hshape, hrest]
    congr 1
    omega

theorem markerEntries_eq_filter_classFunctions (d : PhdcDefs) (vs : List (List Byte)) :
    markerEntries d vs =
      (classFunctions d vs).filter fun v =>
        decide (valueOf v = d.PHDC_11073_20601 ∨ valueOf v = d.PHDC_VENDOR) := by
  unfold markerEntries classFunctions
  rw [List.filter_filter]
  congr 1
  funext v
  by_cases h1 : tagOf v = d.PHDC_CLASSFUNCTION_DESCRIPTOR <;>
    by_cases h2 : (valueOf v = d.PHDC_11073_20601 ∨ valueOf v = d.PHDC_VENDOR) <;>
    simp [h1, h2]

theorem mem_classFunctions (d : PhdcDefs) (vs : List (List Byte)) (v : List Byte)
    (hv : v ∈ vs) (ht : tagOf v = d.PHDC_CLASSFUNCTION_DESCRIPTOR) :
    v ∈ classFunctions d vs := by
  unfold classFunctions
  simp [List.mem_filter, hv, ht]

theorem mem_functionDescriptors (d : PhdcDefs) (vs : List (List Byte)) (v : List Byte)
    (hv : v ∈ vs) (ht : tagOf v = d.PHDC_11073PHD_FUNCTION_DESCRIPTOR) :
    v ∈ functionDescriptors d vs := by
  unfold functionDescriptors
  simp [List.mem_filter, hv, ht]

/-! ### Fuel -/

theorem compat_loop_mono (d : PhdcDefs) (buffer : List Byte) :
    ∀ (fuel : Nat) (s r : CompatState), compat_loop d buffer fuel s = Except.ok r →
      ∀ fuel2, fuel ≤ fuel2 → compat_loop d buffer fuel2 s = Except.ok r := by
  intro fuel
  induction fuel with
  | zero => intro s r h; simp [compat_loop] at h
  | succ fuel ih =>
    intro s r h fuel2 hle
    cases fuel2 with
    | zero => omega
    | succ fuel2 =>
      simp only [compat_loop] at h ⊢
      cases hb : compat_body d buffer s with
      | error e => rw [hb] at h; simp [Except.bind] at h
      | ok s1 =>
        rw [hb] at h
        simp only [Except.bind] at h ⊢
        by_cases hlt : s1.index < buffer.length
        · rw [if_pos hlt] at h ⊢
          exact ih s1 r h fuel2 (by omega)
        · rw [if_neg hlt] at h ⊢
          exact h

theorem is_ieee11073_compatible_mono (d : PhdcDefs) (buffer : List Byte) (fuel fuel2 r : Nat)
    (h : is_ieee11073_compatible d buffer fuel = Except.ok r) (hle : fuel ≤ fuel2) :
    is_ieee11073_compatible d buffer fuel2 = Except.ok r := by
  unfold is_ieee11073_compatible at h ⊢
  by_cases hpos : buffer.length > 0
  · rw [if_pos hpos] at h ⊢
    cases hl : compat_loop d buffer fuel ⟨0, 0, 0⟩ with
    | error e => rw [hl] at h; simp [Except.bind] at h
    | ok s =>
      rw [hl] at h
      rw [compat_loop_mono d buffer fuel _ s hl fuel2 hle]
      exact h
  · rw [if_neg hpos] at h ⊢
    exact h

theorem specs_loop_mono (d : PhdcDefs) (buffer : List Byte) :
    ∀ (fuel : Nat) (s r : SpecState), specs_loop d buffer fuel s = Except.ok r →
      ∀ fuel2, fuel ≤ fuel2 → specs_loop d buffer fuel2 s = Except.ok r := by
  intro fuel
  induction fuel with
  | zero => intro s r h; simp [specs_loop] at h
  | succ fuel ih =>
    intro s r h fuel2 hle
    cases fuel2 with
    | zero => omega
    | succ fuel2 =>
      simp only [specs_loop] at h ⊢
      cases hb : specs_body d buffer s with
      | error e => rw [hb] at h; simp [Except.bind] at h
      | ok s1 =>
        rw [hb] at h
        simp only [Except.bind] at h ⊢
        by_cases hlt : s1.index < buffer.length
        · rw [if_pos hlt] at h ⊢
          exact ih s1 r h fuel2 (by omega)
        · rw [if_neg hlt] at h ⊢
          exact h

theorem get_device_specializations_mono (d : PhdcDefs) (buffer : List Byte)
    (n fuel fuel2 : Nat) (r : Option (List Nat) × Nat)
    (h : get_device_specializations d buffer n fuel = Except.ok r) (hle : fuel ≤ fuel2) :
    get_device_specializations d buffer n fuel2 = Except.ok r := by
  unfold get_device_specializations at h ⊢
  by_cases hpos : buffer.length > 0
  · rw [if_pos hpos] at h ⊢
    cases hl : specs_loop d buffer fuel ⟨0, n, none⟩ with
    | error e => rw [hl] at h; simp [Except.bind] at h
    | ok s =>
      rw [hl] at h
      rw [specs_loop_mono d buffer fuel _ s hl fuel2 hle]
      exact h
  · rw [if_neg hpos] at h ⊢
    exact h

/-! ### Runs that end -/

theorem bind_ne_fuel {α β : Type} (x : Except Fault α) (f : α → Except Fault β)
    (hx : x ≠ Except.error Fault.out_of_fuel)
    (hf : ∀ a, f a ≠ Except.error Fault.out_of_fuel) :
    x.bind f ≠ Except.error Fault.out_of_fuel := by
  cases x with
  | error e => simpa [Except.bind] using hx
  | ok a => simpa [Except.bind] using hf a

theorem rd_ne_fuel (buffer : List Byte) (i : Nat) :
    rd buffer i ≠ Except.error Fault.out_of_fuel := by
  unfold rd
  cases buffer[i]? <;> simp

theorem ok_ne_fuel {α : Type} (a : α) :
    (Except.ok a : Except Fault α) ≠ Except.error Fault.out_of_fuel := by
  simp

theorem read_specs_ne_fuel (buffer : List Byte) (index : Nat) :
    ∀ (k i : Nat), read_specs buffer index i k ≠ Except.error Fault.out_of_fuel := by
  intro k
  induction k with
  | zero => intro i; simp [read_specs]
  | succ k ih =>
    intro i
    unfold read_specs
    refine bind_ne_fuel _ _ (rd_ne_fuel _ _) fun lo => ?_
    refine bind_ne_fuel _ _ (rd_ne_fuel _ _) fun hi => ?_
    exact bind_ne_fuel _ _ (ih (i + 1)) fun rest => ok_ne_fuel _

theorem compat_body_ne_fuel (d : PhdcDefs) (buffer : List Byte) (s : CompatState) :
    compat_body d buffer s ≠ Except.error Fault.out_of_fuel := by
  unfold compat_body
  refine bind_ne_fuel _ _ (rd_ne_fuel _ _) fun len => ?_
  refine bind_ne_fuel _ _ (rd_ne_fuel _ _) fun b1 => ?_
  refine bind_ne_fuel _ _ ?_ fun s1 => ok_ne_fuel _
  split_ifs
  · refine bind_ne_fuel _ _ (rd_ne_fuel _ _) fun b2 => ?_
    intro hcontra
    simp only at hcontra
    split_ifs at hcontra
  · exact bind_ne_fuel _ _ (rd_ne_fuel _ _) fun b3 => ok_ne_fuel _
  · exact ok_ne_fuel _

theorem specs_body_ne_fuel (d : PhdcDefs) (buffer : List Byte) (s : SpecState) :
    specs_body d buffer s ≠ Except.error Fault.out_of_fuel := by
  unfold specs_body
  refine bind_ne_fuel _ _ (rd_ne_fuel _ _) fun len => ?_
  refine bind_ne_fuel _ _ (rd_ne_fuel _ _) fun type => ?_
  refine bind_ne_fuel _ _ ?_ fun s1 => ok_ne_fuel _
  split_ifs
  · refine bind_ne_fuel _ _ (rd_ne_fuel _ _) fun n => ?_
    split_ifs
    · exact bind_ne_fuel _ _ (read_specs_ne_fuel _ _ _ _) fun l => ok_ne_fuel _
    · exact ok_ne_fuel _
  · exact ok_ne_fuel _

theorem rd_eq_ok (buffer : List Byte) (i v : Nat) (h : rd buffer i = Except.ok v) :
    v = byteAt buffer i := by
  by_cases hi : i < buffer.length
  · rw [rd_inb buffer i hi] at h
    exact (Except.ok.inj h).symm
  · rw [rd_oob buffer i (by omega)] at h
    cases h

/-- Each iteration of `is_ieee11073_compatible` advances the offset by the length byte. -/
theorem compat_body_index (d : PhdcDefs) (buffer : List Byte) (s s1 : CompatState)
    (h : compat_body d buffer s = Except.ok s1) :
    s1.index = s.index + byteAt buffer s.index := by
  unfold compat_body at h
  cases h0 : rd buffer s.index with
  | error e => rw [h0] at h; simp [Except.bind] at h
  | ok len =>
    have hl := rd_eq_ok buffer _ _ h0
    rw [h0] at h
    simp only [Except.bind] at h
    split at h
    · cases h
    · split at h
      · cases h
      · cases h
        simp [hl]

/-- Each iteration of `get_device_specializations` advances the offset by the length
byte. -/
theorem specs_body_index (d : PhdcDefs) (buffer : List Byte) (s s1 : SpecState)
    (h : specs_body d buffer s = Except.ok s1) :
    s1.index = s.index + byteAt buffer s.index := by
  unfold specs_body at h
  cases h0 : rd buffer s.index with
  | error e => rw [h0] at h; simp [Except.bind] at h
  | ok len =>
    have hl := rd_eq_ok buffer _ _ h0
    rw [h0] at h
    simp only [Except.bind] at h
    split at h
    · cases h
    · split at h
      · cases h
      · cases h
        simp [hl]

theorem compat_loop_ends (d : PhdcDefs) (buffer : List Byte) :
    ∀ (k fuel : Nat) (s : CompatState), k ≤ fuel → s.index < buffer.length →
      buffer.length - s.index ≤ k →
      (∀ j ∈ scanOffsets buffer k s.index, byteAt buffer j ≠ 0) →
      compat_loop d buffer fuel s ≠ Except.error Fault.out_of_fuel := by
  intro k
  induction k with
  | zero => intro fuel s _ hlt hk; omega
  | succ k ih =>
    intro fuel s hfuel hlt hk hpos
    cases fuel with
    | zero => omega
    | succ fuel =>
      unfold compat_loop
      cases hb : compat_body d buffer s with
      | error e =>
        have := compat_body_ne_fuel d buffer s
        rw [hb] at this
        simpa [Except.bind] using this
      | ok s1 =>
        have hidx := compat_body_index d buffer s s1 hb
        have hne : byteAt buffer s.index ≠ 0 := hpos _ (by simp [scanOffsets])
        simp only [Except.bind]
        split_ifs with hc
        · refine ih fuel s1 (by omega) hc (by omega) fun j hj => hpos j ?_
          rw [hidx] at hj hc
          simp only [scanOffsets, hc, if_true, List.mem_cons]
          exact Or.inr hj
        · exact ok_ne_fuel _

theorem specs_loop_ends (d : PhdcDefs) (buffer : List Byte) :
    ∀ (k fuel : Nat) (s : SpecState), k ≤ fuel → s.index < buffer.length →
      buffer.length - s.index ≤ k →
      (∀ j ∈ scanOffsets buffer k s.index, byteAt buffer j ≠ 0) →
      specs_loop d buffer fuel s ≠ Except.error Fault.out_of_fuel := by
  intro k
  induction k with
  | zero => intro fuel s _ hlt hk; omega
  | succ k ih =>
    intro fuel s hfuel hlt hk hpos
    cases fuel with
    | zero => omega
    | succ fuel =>
      unfold specs_loop
      cases hb : specs_body d buffer s with
      | error e =>
        have := specs_body_ne_fuel d buffer s
        rw [hb] at this
        simpa [Except.bind] using this
      | ok s1 =>
        have hidx := specs_body_index d buffer s s1 hb
        have hne : byteAt buffer s.index ≠ 0 := hpos _ (by simp [scanOffsets])
        simp only [Except.bind]
        split_ifs with hc
        · refine ih fuel s1 (by omega) hc (by omega) fun j hj => hpos j ?_
          rw [hidx] at hj hc
          simp only [scanOffsets, hc, if_true, List.mem_cons]
          exact Or.inr hj
        · exact ok_ne_fuel _

theorem ends_of_ne_fuel {α : Type} (x : Except Fault α)
    (h : x ≠ Except.error Fault.out_of_fuel) :
    (∃ r, x = Except.ok r) ∨ ∃ i, x = Except.error (Fault.out_of_bounds i) := by
  cases x with
  | ok r => exact Or.inl ⟨r, rfl⟩
  | error e =>
    cases e with
    | out_of_bounds i => exact Or.inr ⟨i, rfl⟩
    | out_of_fuel => exact absurd rfl h

/-! ### A zero length byte -/

/-- At an offset whose length byte is 0 the loop of `is_ieee11073_compatible` never returns:
an iteration that does not fault leaves the offset where it is. -/
theorem compat_loop_stuck (d : PhdcDefs) (buffer : List Byte) :
    ∀ (fuel : Nat) (s r : CompatState), s.index < buffer.length →
      byteAt buffer s.index = 0 → compat_loop d buffer fuel s ≠ Except.ok r := by
  intro fuel
  induction fuel with
  | zero => intro s r _ _ h; simp [compat_loop] at h
  | succ fuel ih =>
    intro s r hlt hz h
    simp only [compat_loop] at h
    cases hb : compat_body d buffer s with
    | error e => rw [hb] at h; cases h
    | ok s1 =>
      have hidx := compat_body_index d buffer s s1 hb
      rw [hz, Nat.add_zero] at hidx
      rw [hb] at h
      simp only [Except.bind] at h
      rw [if_pos (by rw [hidx]; exact hlt)] at h
      exact ih s1 r (by rw [hidx]; exact hlt) (by rw [hidx]; exact hz) h

theorem specs_loop_stuck (d : PhdcDefs) (buffer : List Byte) :
    ∀ (fuel : Nat) (s r : SpecState), s.index < buffer.length →
      byteAt buffer s.index = 0 → specs_loop d buffer fuel s ≠ Except.ok r := by
  intro fuel
  induction fuel with
  | zero => intro s r _ _ h; simp [specs_loop] at h
  | succ fuel ih =>
    intro s r hlt hz h
    simp only [specs_loop] at h
    cases hb : specs_body d buffer s with
    | error e => rw [hb] at h; cases h
    | ok s1 =>
      have hidx := specs_body_index d buffer s s1 hb
      rw [hz, Nat.add_zero] at hidx
      rw [hb] at h
      simp only [Except.bind] at h
      rw [if_pos (by rw [hidx]; exact hlt)] at h
      exact ih s1 r (by rw [hidx]; exact hlt) (by rw [hidx]; exact hz) h

/-- If a length byte is 0 at one of the offsets at which the scan starts an iteration, the
loop of `is_ieee11073_compatible` never returns. -/
theorem compat_loop_never_returns (d : PhdcDefs) (buffer : List Byte) :
    ∀ (k fuel : Nat) (s r : CompatState) (j : Nat), s.index < buffer.length →
      j ∈ scanOffsets buffer k s.index → byteAt buffer j = 0 →
      compat_loop d buffer fuel s ≠ Except.ok r := by
  intro k
  induction k with
  | zero => intro fuel s r j _ hj; simp [scanOffsets] at hj
  | succ k ih =>
    intro fuel s r j hlt hj hz h
    simp only [scanOffsets, List.mem_cons] at hj
    rcases hj with hj | hj
    · subst hj
      exact compat_loop_stuck d buffer fuel s r hlt hz h
    · by_cases hnext : s.index + byteAt buffer s.index < buffer.length
      · rw [if_pos hnext] at hj
        cases fuel with
        | zero => simp [compat_loop] at h
        | succ fuel =>
          simp only [compat_loop] at h
          cases hb : compat_body d buffer s with
          | error e => rw [hb] at h; cases h
          | ok s1 =>
            have hidx := compat_body_index d buffer s s1 hb
            rw [hb] at h
            simp only [Except.bind] at h
            rw [if_pos (by rw [hidx]; exact hnext)] at h
            exact ih fuel s1 r j (by rw [hidx]; exact hnext) (by rw [hidx]; exact hj) hz h
      · rw [if_neg hnext] at hj
        simp at hj

theorem specs_loop_never_returns (d : PhdcDefs) (buffer : List Byte) :
    ∀ (k fuel : Nat) (s r : SpecState) (j : Nat), s.index < buffer.length →
      j ∈ scanOffsets buffer k s.index → byteAt buffer j = 0 →
      specs_loop d buffer fuel s ≠ Except.ok r := by
  intro k
  induction k with
  | zero => intro fuel s r j _ hj; simp [scanOffsets] at hj
  | succ k ih =>
    intro fuel s r j hlt hj hz h
    simp only [scanOffsets, List.mem_cons] at hj
    rcases hj with hj | hj
    · subst hj
      exact specs_loop_stuck d buffer fuel s r hlt hz h
    · by_cases hnext : s.index + byteAt buffer s.index < buffer.length
      · rw [if_pos hnext] at hj
        cases fuel with
        | zero => simp [specs_loop] at h
        | succ fuel =>
          simp only [specs_loop] at h
          cases hb : specs_body d buffer s with
          | error e => rw [hb] at h; cases h
          | ok s1 =>
            have hidx := specs_body_index d buffer s s1 hb
            rw [hb] at h
            simp only [Except.bind] at h
            rw [if_pos (by rw [hidx]; exact hnext)] at h
            exact ih fuel s1 r j (by rw [hidx]; exact hnext) (by rw [hidx]; exact hj) hz h
      · rw [if_neg hnext] at hj
        simp at hj

theorem is_ieee11073_compatible_never_returns (d : PhdcDefs) (buffer : List Byte)
    (k fuel j r : Nat) (hpos : 0 < buffer.length)
    (hj : j ∈ scanOffsets buffer k 0) (hz : byteAt buffer j = 0) :
    is_ieee11073_compatible d buffer fuel ≠ Except.ok r := by
  intro h
  unfold is_ieee11073_compatible at h
  rw [if_pos hpos] at h
  cases hl : compat_loop d buffer fuel ⟨0, 0, 0⟩ with
  | error e => rw [hl] at h; cases h
  | ok s => exact compat_loop_never_returns d buffer k fuel ⟨0, 0, 0⟩ s j hpos hj hz hl

theorem get_device_specializations_never_returns (d : PhdcDefs) (buffer : List Byte)
    (num_specs k fuel j : Nat) (r : Option (List Nat) × Nat) (hpos : 0 < buffer.length)
    (hj : j ∈ scanOffsets buffer k 0) (hz : byteAt buffer j = 0) :
    get_device_specializations d buffer num_specs fuel ≠ Except.ok r := by
  intro h
  unfold get_device_specializations at h
  rw [if_pos hpos] at h
  cases hl : specs_loop d buffer fuel ⟨0, num_specs, none⟩ with
  | error e => rw [hl] at h; cases h
  | ok s =>
    exact specs_loop_never_returns d buffer k fuel ⟨0, num_specs, none⟩ s j hpos hj hz hl

theorem compat_loop_zeroLength (d : PhdcDefs) :
    ∀ (fuel n c : Nat),
      compat_loop d zeroLengthBuffer fuel ⟨0, n, c⟩ = Except.error Fault.out_of_fuel := by
  intro fuel
  induction fuel with
  | zero => intro n c; rfl
  | succ fuel ih =>
    intro n c
    have hb : ∃ n2 c2, compat_body d zeroLengthBuffer ⟨0, n, c⟩ = Except.ok ⟨0, n2, c2⟩ := by
      simp only [compat_body, zeroLengthBuffer, rd, Except.bind]
      simp only [List.getElem?_cons_zero, List.getElem?_cons_succ]
      split_ifs <;> exact ⟨_, _, rfl⟩
    obtain ⟨n2, c2, hb⟩ := hb
    simp only [compat_loop, hb, Except.bind]
    rw [if_pos (by decide)]
    exact ih n2 c2

theorem specs_loop_zeroLength (d : PhdcDefs) :
    ∀ (fuel n : Nat) (l : Option (List Nat)),
      specs_loop d zeroLengthBuffer fuel ⟨0, n, l⟩ = Except.error Fault.out_of_fuel := by
  intro fuel
  induction fuel with
  | zero => intro n l; rfl
  | succ fuel ih =>
    intro n l
    have hb : ∃ n2 l2, specs_body d zeroLengthBuffer ⟨0, n, l⟩ = Except.ok ⟨0, n2, l2⟩ := by
      simp only [specs_body, zeroLengthBuffer, rd, Except.bind]
      simp only [List.getElem?_cons_zero, List.getElem?_cons_succ]
      split_ifs <;> exact ⟨_, _, rfl⟩
    obtain ⟨n2, l2, hb⟩ := hb
    simp only [specs_loop, hb, Except.bind]
    rw [if_pos (by decide)]
    exact ih n2 l2

/-! ## The claims about the descriptor scans -/

/-- C1. For a buffer tiled by well-formed entries that has exactly one class-function
entry, whose value byte is the 11073-20601 marker, and exactly one function-descriptor entry,
whose count byte is `N ≥ 1` and is followed by the little-endian bytes of `N` 16-bit codes,
`is_ieee11073_compatible` returns 1 and `get_device_specializations` returns the list of the
`N` codes in order with `*num_specs = N` (any fuel of at least the buffer length suffices;
the two tags are distinct constants). -/
theorem C1_marker_and_codes_parsed (d : PhdcDefs) (es : List (List Byte))
    (cf fd tail : List Byte) (b0 b1 b2 : Byte) (codes : List Nat) (num_specs fuel : Nat)
    (hd : d.PHDC_CLASSFUNCTION_DESCRIPTOR ≠ d.PHDC_11073PHD_FUNCTION_DESCRIPTOR)
    (hT : Tiled es)
    (hcf : classFunctions d (views es) = [cf])
    (hcfv : 3 ≤ cf.length ∧ valueOf cf = d.PHDC_11073_20601)
    (hfd : functionDescriptors d (views es) = [fd])
    (hfdv : fd = b0 :: b1 :: b2 :: Fin.ofNat codes.length :: (encodeCodes codes ++ tail))
    (hN : 1 ≤ codes.length) (hN256 : codes.length < 256)
    (hc : ∀ c ∈ codes, c < 65536)
    (hfuel : es.flatten.length ≤ fuel) :
    is_ieee11073_compatible d es.flatten fuel = Except.ok 1 ∧
    get_device_specializations d es.flatten num_specs fuel =
      Except.ok (some codes, codes.length) := by
  have hcount : countOf fd = codes.length := by
    rw [hfdv]
    simp only [countOf, byteAt, List.getD_cons_succ, List.getD_cons_zero, Fin.ofNat]
    exact Nat.mod_eq_of_lt hN256
  have hfdlen : 4 + 2 * countOf fd ≤ fd.length := by
    rw [hcount, hfdv]
    simp only [List.length_cons, List.length_append, length_encodeCodes]
    omega
  have hBc : ∀ v ∈ views es, CompatInBounds d v := by
    intro v hv
    constructor
    · intro ht
      have := mem_classFunctions d _ v hv ht
      rw [hcf, List.mem_singleton] at this
      rw [this]; exact hcfv.1
    · intro ht
      have := mem_functionDescriptors d _ v hv ht
      rw [hfd, List.mem_singleton] at this
      rw [this]; omega
  have hBs : ∀ v ∈ views es, SpecsInBounds d v := by
    intro v hv ht
    have := mem_functionDescriptors d _ v hv ht
    rw [hfd, List.mem_singleton] at this
    rw [this]; exact hfdlen
  constructor
  · rw [is_ieee11073_compatible_tiled d es fuel hT hBc hfuel, foldl_cstep_eq d hd]
    have h1 : lastCount d (views es) = codes.length := by
      simp [lastCount, hfd, hcount]
    have h2 : LastMarkerIs20601 d (views es) := by
      unfold LastMarkerIs20601
      rw [markerEntries_eq_filter_classFunctions, hcf]
      simp [List.filter_cons, hcfv.2]
    simp only [h1, h2, if_true]
    rw [if_pos ⟨by omega, trivial⟩]
  · rw [get_device_specializations_tiled d es num_specs fuel hT hBs hfuel,
      foldl_sstep_functionDescriptors, hfd]
    have htag : tagOf fd = d.PHDC_11073PHD_FUNCTION_DESCRIPTOR := by
      have : fd ∈ functionDescriptors d (views es) := by rw [hfd]; simp
      unfold functionDescriptors at this
      simpa using (List.mem_filter.1 this).2
    have hcodes : codesFrom fd 0 codes.length = codes := by
      rw [hfdv]
      exact codesFrom_encodeCodes tail codes [b0, b1, b2, Fin.ofNat codes.length] 0 rfl hc
    simp only [List.foldl_cons, List.foldl_nil, sstep, htag, if_true, hcount]
    rw [if_pos (by omega), hcodes]

/-- C1 at `sampleEntries`: the hypotheses hold there and both scans give the expected
results. -/
theorem C1_marker_and_codes_parsed_witness :
    Tiled sampleEntries ∧
    is_ieee11073_compatible sampleDefs sampleEntries.flatten 12 = Except.ok 1 ∧
    get_device_specializations sampleDefs sampleEntries.flatten 0 12 =
      Except.ok (some [4, 5], 2) :=
  ⟨by decide,
    C1_marker_and_codes_parsed sampleDefs sampleEntries
      [0x04, 0x20, 0x02, 0x00, 0x08, 0x30, 0x00, 0x02, 0x04, 0x00, 0x05, 0x00]
      [0x08, 0x30, 0x00, 0x02, 0x04, 0x00, 0x05, 0x00] [] 0x08 0x30 0x00 [4, 5] 0 12
      (by decide) (by decide) (by decide) (by decide) (by decide) (by decide)
      (by decide) (by decide) (by decide) (by decide)⟩

/-! ### The worked example -/

theorem exampleBuffer_eq : exampleBuffer = exampleEntries.flatten := by decide

theorem exampleEntries_compatInBounds (d : PhdcDefs) :
    ∀ v ∈ views exampleEntries, CompatInBounds d v := by
  have h : ∀ v ∈ views exampleEntries, 4 ≤ v.length := by decide
  intro v hv
  have := h v hv
  exact ⟨fun _ => by omega, fun _ => this⟩

/-- C4, as stated, fails: whatever the values of the macros, if the 11073-20601 marker is
the byte at index 3 of the buffer (0x01), no run of `is_ieee11073_compatible` on the 13-byte
buffer returns 1. The scan compares the marker with the byte at offset 2 of a class-function
entry, which is 0x00 in both entries of the buffer. With the codes of the USB PHDC class
(`sampleDefs`) neither type byte of the buffer is a known tag: the verdict is 0 and the list
is `NULL`. -/
theorem C4_example_marker_at_byte3_not_compatible :
    (¬ ∃ (d : PhdcDefs) (fuel : Nat), d.PHDC_11073_20601 = 0x01 ∧
        is_ieee11073_compatible d exampleBuffer fuel = Except.ok 1) ∧
    is_ieee11073_compatible sampleDefs exampleBuffer 13 = Except.ok 0 ∧
    get_device_specializations sampleDefs exampleBuffer 0 13 = Except.ok (none, 0) := by
  refine ⟨?_, by decide, by decide⟩
  rintro ⟨d, fuel, hM, h⟩
  have h2 := is_ieee11073_compatible_mono d exampleBuffer fuel (max fuel 13) 1 h
    (le_max_left _ _)
  rw [exampleBuffer_eq,
    is_ieee11073_compatible_tiled d exampleEntries (max fuel 13) (by decide)
      (exampleEntries_compatInBounds d) (by
        have : exampleEntries.flatten.length = 13 := by decide
        rw [this]; exact le_max_right _ _)] at h2
  have hv : ∀ v ∈ views exampleEntries, valueOf v = 0 := by decide
  have hz := foldl_cstep_snd_zero d (views exampleEntries) 0 (fun v hv2 _ => by
    rw [hv v hv2, hM]; decide)
  rw [hz] at h2
  simp at h2

/-- C4, amended. Read with class-function tag 0x14 and function-descriptor tag 0x10 (the two
type bytes of the buffer), the 13-byte buffer gives `get_device_specializations` the list
`[4, 5]` with `*num_specs = 2`, and `is_ieee11073_compatible` compares the byte at offset 2
of the class-function entry (0x00) with the marker: it returns 1 when the 11073-20601 marker
is 0x00 and 0 for every other marker value, 0x01 included. -/
theorem C4_example_buffer (d : PhdcDefs) (num_specs fuel : Nat)
    (hc : d.PHDC_CLASSFUNCTION_DESCRIPTOR = 0x14)
    (hf : d.PHDC_11073PHD_FUNCTION_DESCRIPTOR = 0x10)
    (hfuel : 13 ≤ fuel) :
    get_device_specializations d exampleBuffer num_specs fuel = Except.ok (some [4, 5], 2) ∧
    is_ieee11073_compatible d exampleBuffer fuel =
      Except.ok (if d.PHDC_11073_20601 = 0x00 then 1 else 0) := by
  have hlen : exampleEntries.flatten.length = 13 := by decide
  have e : views exampleEntries = [exampleBuffer, exampleBuffer.drop 5] := by decide
  have t1 : tagOf exampleBuffer = 0x14 := by decide
  have t2 : tagOf (exampleBuffer.drop 5) = 0x10 := by decide
  have v1 : valueOf exampleBuffer = 0 := by decide
  have n2 : countOf (exampleBuffer.drop 5) = 2 := by decide
  have c2 : codesFrom (exampleBuffer.drop 5) 0 2 = [4, 5] := by decide
  constructor
  · have hB : ∀ v ∈ views exampleEntries, SpecsInBounds d v := by
      have h : ∀ v ∈ views exampleEntries, 4 + 2 * countOf v ≤ v.length := by decide
      exact fun v hv _ => h v hv
    rw [exampleBuffer_eq,
      get_device_specializations_tiled d exampleEntries num_specs fuel (by decide) hB
        (by rw [hlen]; exact hfuel)]
    simp only [e, List.foldl_cons, List.foldl_nil, sstep, t1, t2, n2, c2, hf]
    simp
  · rw [exampleBuffer_eq,
      is_ieee11073_compatible_tiled d exampleEntries fuel (by decide)
        (exampleEntries_compatInBounds d) (by rw [hlen]; exact hfuel)]
    simp only [e, List.foldl_cons, List.foldl_nil, cstep, t1, t2, v1, n2, hf, hc]
    by_cases hm : d.PHDC_11073_20601 = 0
    · simp [hm]
    · have hm2 : ¬ (0 = d.PHDC_11073_20601) := fun h => hm h.symm
      by_cases hv : d.PHDC_VENDOR = 0
      · simp [hm, hm2, hv]
      · have hv2 : ¬ (0 = d.PHDC_VENDOR) := fun h => hv h.symm
        simp [hm, hm2, hv2]

/-- C4 amended, at the marker value 0x01 (byte 3 of the buffer): the list is `[4, 5]` and the
verdict is 0. -/
theorem C4_example_buffer_witness :
    get_device_specializations ⟨0x14, 0x10, 0x01, 0x02⟩ exampleBuffer 0 13 =
      Except.ok (some [4, 5], 2) ∧
    is_ieee11073_compatible ⟨0x14, 0x10, 0x01, 0x02⟩ exampleBuffer 13 = Except.ok 0 :=
  C4_example_buffer ⟨0x14, 0x10, 0x01, 0x02⟩ 0 13 rfl rfl (by decide)

/-- C5. For a buffer tiled by well-formed entries whose only class-function entry carries
the vendor marker (a constant distinct from the 11073-20601 marker), with the count byte of
every function-descriptor entry in bounds, `is_ieee11073_compatible` returns 0, whatever the
function descriptors of the buffer and the counts they declare. -/
theorem C5_vendor_marker_not_compatible (d : PhdcDefs) (es : List (List Byte))
    (cf : List Byte) (fuel : Nat)
    (hmv : d.PHDC_VENDOR ≠ d.PHDC_11073_20601)
    (hT : Tiled es)
    (hcf : classFunctions d (views es) = [cf])
    (hcfv : 3 ≤ cf.length ∧ valueOf cf = d.PHDC_VENDOR)
    (hfd : ∀ v ∈ views es, tagOf v = d.PHDC_11073PHD_FUNCTION_DESCRIPTOR → 4 ≤ v.length)
    (hfuel : es.flatten.length ≤ fuel) :
    is_ieee11073_compatible d es.flatten fuel = Except.ok 0 := by
  have hBc : ∀ v ∈ views es, CompatInBounds d v := by
    intro v hv
    refine ⟨fun ht => ?_, hfd v hv⟩
    have := mem_classFunctions d _ v hv ht
    rw [hcf, List.mem_singleton] at this
    rw [this]; exact hcfv.1
  rw [is_ieee11073_compatible_tiled d es fuel hT hBc hfuel]
  have hz := foldl_cstep_snd_zero d (views es) 0 (fun v hv ht => by
    have := mem_classFunctions d _ v hv ht
    rw [hcf, List.mem_singleton] at this
    rw [this, hcfv.2]; exact hmv)
  rw [hz]
  simp

/-- C5 at `vendorEntries`, whose function descriptor declares two specializations. -/
theorem C5_vendor_marker_not_compatible_witness :
    countOf [0x08, 0x30, 0x00, 0x02, 0x04, 0x00, 0x05, 0x00] = 2 ∧
    is_ieee11073_compatible sampleDefs vendorEntries.flatten 12 = Except.ok 0 :=
  ⟨by decide,
    C5_vendor_marker_not_compatible sampleDefs vendorEntries
      [0x04, 0x20, 0x01, 0x00, 0x08, 0x30, 0x00, 0x02, 0x04, 0x00, 0x05, 0x00] 12
      (by decide) (by decide) (by decide) (by decide) (by decide) (by decide)⟩

/-- C6. Last marker seen wins: for a buffer tiled by well-formed entries with the reads of
`is_ieee11073_compatible` in bounds (and distinct tags for the two entry kinds), the function
returns 0 or 1, and it returns 1 if and only if (a) among the class-function entries whose
value byte is the 11073-20601 marker or the vendor marker the last one carries the
11073-20601 marker and (b) the count read from the last function-descriptor entry is
positive. -/
theorem C6_last_marker_wins (d : PhdcDefs) (es : List (List Byte)) (fuel : Nat)
    (hd : d.PHDC_CLASSFUNCTION_DESCRIPTOR ≠ d.PHDC_11073PHD_FUNCTION_DESCRIPTOR)
    (hT : Tiled es)
    (hB : ∀ v ∈ views es, CompatInBounds d v)
    (hfuel : es.flatten.length ≤ fuel) :
    ∃ r, is_ieee11073_compatible d es.flatten fuel = Except.ok r ∧ (r = 0 ∨ r = 1) ∧
      (r = 1 ↔ LastMarkerIs20601 d (views es) ∧ LastCountPositive d (views es)) := by
  rw [is_ieee11073_compatible_tiled d es fuel hT hB hfuel, foldl_cstep_eq d hd]
  refine ⟨_, rfl, ?_, ?_⟩
  · by_cases h : (lastCount d (views es) > 0 ∧
        (if LastMarkerIs20601 d (views es) then 1 else 0) = 1)
    · right; exact if_pos h
    · left; exact if_neg h
  · rw [lastCountPositive_iff]
    by_cases ha : LastMarkerIs20601 d (views es)
    · by_cases hb : 0 < lastCount d (views es)
      · simp [ha, hb]
      · simp [ha, hb]
    · simp [ha]

/-- C6 at `markerThenVendorEntries`: the vendor entry comes after the 11073-20601 entry, the
count is 2, and the verdict is 0. -/
theorem C6_last_marker_wins_witness :
    ¬ LastMarkerIs20601 sampleDefs (views markerThenVendorEntries) ∧
    ∃ r, is_ieee11073_compatible sampleDefs markerThenVendorEntries.flatten 16 = Except.ok r ∧
      (r = 0 ∨ r = 1) ∧
      (r = 1 ↔ LastMarkerIs20601 sampleDefs (views markerThenVendorEntries) ∧
        LastCountPositive sampleDefs (views markerThenVendorEntries)) :=
  ⟨by decide,
    C6_last_marker_wins sampleDefs markerThenVendorEntries 16 (by decide) (by decide)
      (by decide) (by decide)⟩

/-! ### Buffers cut short, and zero length bytes -/

theorem foldl_cstep_fst (d : PhdcDefs) (vs : List (List Byte)) :
    ∀ (acc : Nat × Nat),
      (∀ v ∈ vs, tagOf v ≠ d.PHDC_11073PHD_FUNCTION_DESCRIPTOR) →
      (List.foldl (cstep d) acc vs).1 = acc.1 := by
  induction vs with
  | nil => intro acc _; rfl
  | cons v vs ih =>
    intro acc h
    rw [List.foldl_cons, ih _ (fun w hw => h w (List.mem_cons_of_mem _ hw))]
    have hv := h v (List.mem_cons_self _ _)
    unfold cstep
    rw [if_neg hv]
    split_ifs <;> rfl

theorem functionDescriptors_eq_nil (d : PhdcDefs) (vs : List (List Byte))
    (h : ∀ v ∈ vs, tagOf v ≠ d.PHDC_11073PHD_FUNCTION_DESCRIPTOR) :
    functionDescriptors d vs = [] := by
  unfold functionDescriptors
  rw [List.filter_eq_nil_iff]
  intro v hv
  simpa using h v hv

/-- C3, as stated, fails: on the buffer of four zero bytes, whose first entry has length
byte 0, every read is in bounds and the offset never moves; whatever the constants and
however much fuel, neither scan returns. -/
theorem C3_zero_length_entry_loops_forever :
    (¬ ∃ (d : PhdcDefs) (fuel : Nat),
        is_ieee11073_compatible d zeroLengthBuffer fuel ≠
          Except.error Fault.out_of_fuel) ∧
    (¬ ∃ (d : PhdcDefs) (num_specs fuel : Nat),
        get_device_specializations d zeroLengthBuffer num_specs fuel ≠
          Except.error Fault.out_of_fuel) := by
  constructor
  · rintro ⟨d, fuel, h⟩
    apply h
    unfold is_ieee11073_compatible
    rw [if_pos (by decide), compat_loop_zeroLength d fuel 0 0]
    rfl
  · rintro ⟨d, n, fuel, h⟩
    apply h
    unfold get_device_specializations
    rw [if_pos (by decide), specs_loop_zeroLength d fuel n none]
    rfl

/-- C3, amended. Each iteration of either scan advances the offset by the length byte of the
entry it is at. (1) If the length byte is non-zero at every offset at which a scan starts an
iteration, both scans end within `buffer_length` iterations: with a fuel of at least the
buffer length the run returns, or stops at a read outside the buffer, and never exhausts the
fuel. (2) If the buffer is not empty and the length byte is 0 at an offset at which a scan
starts an iteration, neither scan ever returns: whatever the fuel, the run exhausts it
without returning, or stops at a read outside the buffer. -/
theorem C3_scan_ends_unless_zero_length (d : PhdcDefs) (buffer : List Byte)
    (num_specs : Nat) :
    (∀ s s1, compat_body d buffer s = Except.ok s1 →
      s1.index = s.index + byteAt buffer s.index) ∧
    (∀ s s1, specs_body d buffer s = Except.ok s1 →
      s1.index = s.index + byteAt buffer s.index) ∧
    ((∀ j ∈ scanOffsets buffer buffer.length 0, byteAt buffer j ≠ 0) →
      ∀ fuel, buffer.length ≤ fuel →
        ((∃ r, is_ieee11073_compatible d buffer fuel = Except.ok r) ∨
          ∃ i, is_ieee11073_compatible d buffer fuel =
            Except.error (Fault.out_of_bounds i)) ∧
        ((∃ r, get_device_specializations d buffer num_specs fuel = Except.ok r) ∨
          ∃ i, get_device_specializations d buffer num_specs fuel =
            Except.error (Fault.out_of_bounds i))) ∧
    (0 < buffer.length →
      ∀ k j, j ∈ scanOffsets buffer k 0 → byteAt buffer j = 0 →
        ∀ fuel,
          (∀ r, is_ieee11073_compatible d buffer fuel ≠ Except.ok r) ∧
          (∀ r, get_device_specializations d buffer num_specs fuel ≠ Except.ok r) ∧
          (is_ieee11073_compatible d buffer fuel = Except.error Fault.out_of_fuel ∨
            ∃ i, is_ieee11073_compatible d buffer fuel =
              Except.error (Fault.out_of_bounds i)) ∧
          (get_device_specializations d buffer num_specs fuel =
              Except.error Fault.out_of_fuel ∨
            ∃ i, get_device_specializations d buffer num_specs fuel =
              Except.error (Fault.out_of_bounds i))) := by
  refine ⟨compat_body_index d buffer, specs_body_index d buffer,
    fun hpos fuel hfuel => ⟨ends_of_ne_fuel _ ?_, ends_of_ne_fuel _ ?_⟩,
    fun hlen k j hj hz fuel => ?_⟩
  · unfold is_ieee11073_compatible
    refine bind_ne_fuel _ _ ?_ fun s => ok_ne_fuel _
    split_ifs with h
    · exact compat_loop_ends d buffer buffer.length fuel _ hfuel h (by simp) hpos
    · exact ok_ne_fuel _
  · unfold get_device_specializations
    refine bind_ne_fuel _ _ ?_ fun s => ok_ne_fuel _
    split_ifs with h
    · exact specs_loop_ends d buffer buffer.length fuel _ hfuel h (by simp) hpos
    · exact ok_ne_fuel _
  · have h1 : ∀ r, is_ieee11073_compatible d buffer fuel ≠ Except.ok r := fun r =>
      is_ieee11073_compatible_never_returns d buffer k fuel j r hlen hj hz
    have h2 : ∀ r, get_device_specializations d buffer num_specs fuel ≠ Except.ok r :=
      fun r => get_device_specializations_never_returns d buffer num_specs k fuel j r hlen hj hz
    refine ⟨h1, h2, ?_, ?_⟩
    · cases h : is_ieee11073_compatible d buffer fuel with
      | ok r => exact absurd h (h1 r)
      | error e =>
        cases e with
        | out_of_bounds i => exact Or.inr ⟨i, rfl⟩
        | out_of_fuel => exact Or.inl rfl
    · cases h : get_device_specializations d buffer num_specs fuel with
      | ok r => exact absurd h (h2 r)
      | error e =>
        cases e with
        | out_of_bounds i => exact Or.inr ⟨i, rfl⟩
        | out_of_fuel => exact Or.inl rfl

/-- C3 amended, at two buffers. On the 13-byte example buffer the scans start iterations at
offsets 0 and 5, where the length bytes are 5 and 8, and both end. On `[0x02,0x00,0x00]` the
scans start an iteration at offset 2, where the length byte is 0: neither returns, and with
the constants of `sampleDefs` both stop at the read of index 3. -/
theorem C3_scan_ends_unless_zero_length_witness :
    scanOffsets exampleBuffer 13 0 = [0, 5] ∧
    ((∃ r, is_ieee11073_compatible sampleDefs exampleBuffer 13 = Except.ok r) ∨
      ∃ i, is_ieee11073_compatible sampleDefs exampleBuffer 13 =
        Except.error (Fault.out_of_bounds i)) ∧
    ((∃ r, get_device_specializations sampleDefs exampleBuffer 0 13 = Except.ok r) ∨
      ∃ i, get_device_specializations sampleDefs exampleBuffer 0 13 =
        Except.error (Fault.out_of_bounds i)) ∧
    scanOffsets zeroLengthAtEndBuffer 3 0 = [0, 2, 2] ∧
    (∀ r, is_ieee11073_compatible sampleDefs zeroLengthAtEndBuffer 3 ≠ Except.ok r) ∧
    (∀ r, get_device_specializations sampleDefs zeroLengthAtEndBuffer 0 3 ≠ Except.ok r) ∧
    is_ieee11073_compatible sampleDefs zeroLengthAtEndBuffer 3 =
      Except.error (Fault.out_of_bounds 3) ∧
    get_device_specializations sampleDefs zeroLengthAtEndBuffer 0 3 =
      Except.error (Fault.out_of_bounds 3) :=
  ⟨by decide,
    ((C3_scan_ends_unless_zero_length sampleDefs exampleBuffer 0).2.2.1
      (by decide) 13 (by decide)).1,
    ((C3_scan_ends_unless_zero_length sampleDefs exampleBuffer 0).2.2.1
      (by decide) 13 (by decide)).2,
    by decide,
    ((C3_scan_ends_unless_zero_length sampleDefs zeroLengthAtEndBuffer 0).2.2.2
      (by decide) 3 2 (by decide) (by decide) 3).1,
    ((C3_scan_ends_unless_zero_length sampleDefs zeroLengthAtEndBuffer 0).2.2.2
      (by decide) 3 2 (by decide) (by decide) 3).2.1,
    by decide, by decide⟩

/-! ### Teardown of one record -/

theorem release_phdc_device_of_released (dev : usb_phdc_device) (h : Released dev) :
    release_phdc_device dev = (dev, []) := by
  obtain ⟨h1, h2, h3, h4, h5, h6, h7, h8⟩ := h
  have e1 : release_handle (dev, []) = (dev, []) := by simp [release_handle, h1]
  have e2 : release_reference (dev, []) = (dev, []) := by simp [release_reference, h2]
  have e3 : release_manufacturer (dev, []) = (dev, []) := by simp [release_manufacturer, h3]
  have e4 : release_name (dev, []) = (dev, []) := by simp [release_name, h4]
  have e5 : release_serial_number (dev, []) = (dev, []) := by
    simp [release_serial_number, h5]
  have e6 : release_specializations (dev, []) = (dev, []) := by
    simp [release_specializations, h6]
  have e7 : release_file_descriptors (dev, []) = (dev, []) := by
    simp [release_file_descriptors, h7]
  have e8 : release_context (dev, []) = (dev, []) := by simp [release_context, h8]
  unfold release_phdc_device
  rw [e1, e2, e3, e4, e5, e6, e7, e8]

theorem release_handle_fst (r : usb_phdc_device × List Action) :
    (release_handle r).1 = { r.1 with usb_device_handle := none } := by
  unfold release_handle
  split_ifs with h
  · rfl
  · have h2 : r.1.usb_device_handle = none := by simpa using h
    obtain ⟨⟨ctx, hdl, ud, vid, pid, hi, e1, e2, e3, nm, mf, sn, sp, ns, fds, cnt⟩, t⟩ := r
    simp only at h2
    subst h2
    rfl

theorem release_reference_fst (r : usb_phdc_device × List Action) :
    (release_reference r).1 = { r.1 with usb_device := none } := by
  unfold release_reference
  split_ifs with h
  · rfl
  · have h2 : r.1.usb_device = none := by simpa using h
    obtain ⟨⟨ctx, hdl, ud, vid, pid, hi, e1, e2, e3, nm, mf, sn, sp, ns, fds, cnt⟩, t⟩ := r
    simp only at h2
    subst h2
    rfl

theorem release_manufacturer_fst (r : usb_phdc_device × List Action) :
    (release_manufacturer r).1 = { r.1 with manufacturer := none } := by
  unfold release_manufacturer
  split_ifs with h
  · rfl
  · have h2 : r.1.manufacturer = none := by simpa using h
    obtain ⟨⟨ctx, hdl, ud, vid, pid, hi, e1, e2, e3, nm, mf, sn, sp, ns, fds, cnt⟩, t⟩ := r
    simp only at h2
    subst h2
    rfl

theorem release_name_fst (r : usb_phdc_device × List Action) :
    (release_name r).1 = { r.1 with name := none } := by
  unfold release_name
  split_ifs with h
  · rfl
  · have h2 : r.1.name = none := by simpa using h
    obtain ⟨⟨ctx, hdl, ud, vid, pid, hi, e1, e2, e3, nm, mf, sn, sp, ns, fds, cnt⟩, t⟩ := r
    simp only at h2
    subst h2
    rfl

theorem release_serial_number_fst (r : usb_phdc_device × List Action) :
    (release_serial_number r).1 = { r.1 with serial_number := none } := by
  unfold release_serial_number
  split_ifs with h
  · rfl
  · have h2 : r.1.serial_number = none := by simpa using h
    obtain ⟨⟨ctx, hdl, ud, vid, pid, hi, e1, e2, e3, nm, mf, sn, sp, ns, fds, cnt⟩, t⟩ := r
    simp only at h2
    subst h2
    rfl

theorem release_specializations_fst (r : usb_phdc_device × List Action) :
    (release_specializations r).1 = { r.1 with specializations := none } := by
  unfold release_specializations
  split_ifs with h
  · rfl
  · have h2 : r.1.specializations = none := by simpa using h
    obtain ⟨⟨ctx, hdl, ud, vid, pid, hi, e1, e2, e3, nm, mf, sn, sp, ns, fds, cnt⟩, t⟩ := r
    simp only at h2
    subst h2
    rfl

theorem release_file_descriptors_fst (r : usb_phdc_device × List Action) :
    (release_file_descriptors r).1 =
      { r.1 with
        file_descriptors_count :=
          if 0 < r.1.file_descriptors_count then 0 else r.1.file_descriptors_count
        file_descriptors :=
          if 0 < r.1.file_descriptors_count then none else r.1.file_descriptors } := by
  unfold release_file_descriptors
  by_cases h : 0 < r.1.file_descriptors_count
  · simp only [gt_iff_lt, h, if_true]
  · simp only [gt_iff_lt, h, if_false]

theorem release_context_fst (r : usb_phdc_device × List Action) :
    (release_context r).1 = { r.1 with usb_device_context := none } := by
  unfold release_context
  split_ifs with h
  · rfl
  · have h2 : r.1.usb_device_context = none := by simpa using h
    obtain ⟨⟨ctx, hdl, ud, vid, pid, hi, e1, e2, e3, nm, mf, sn, sp, ns, fds, cnt⟩, t⟩ := r
    simp only at h2
    subst h2
    rfl

theorem release_context_mem (r : usb_phdc_device × List Action) (x : Action)
    (hx : x ∈ r.2) : x ∈ (release_context r).2 := by
  unfold release_context
  split_ifs
  · exact List.mem_append_left _ hx
  · exact hx

/-- The record after `release_phdc_device`, field by field, and the `free` of the poll-set
array when the count was positive. -/
theorem release_phdc_device_closed_form (dev : usb_phdc_device) :
    (release_phdc_device dev).1 =
      { dev with
        usb_device_handle := none
        usb_device := none
        manufacturer := none
        name := none
        serial_number := none
        specializations := none
        file_descriptors_count :=
          if 0 < dev.file_descriptors_count then 0 else dev.file_descriptors_count
        file_descriptors :=
          if 0 < dev.file_descriptors_count then none else dev.file_descriptors
        usb_device_context := none } ∧
    (0 < dev.file_descriptors_count →
      Action.free dev.file_descriptors ∈ (release_phdc_device dev).2) := by
  unfold release_phdc_device
  constructor
  · rw [release_context_fst, release_file_descriptors_fst, release_specializations_fst,
      release_serial_number_fst, release_name_fst, release_manufacturer_fst,
      release_reference_fst, release_handle_fst]
  · intro hc
    apply release_context_mem
    have hrec : (release_specializations (release_serial_number (release_name
        (release_manufacturer (release_reference (release_handle (dev, []))))))).1 =
        { dev with
          usb_device_handle := none
          usb_device := none
          manufacturer := none
          name := none
          serial_number := none
          specializations := none } := by
      rw [release_specializations_fst, release_serial_number_fst, release_name_fst,
        release_manufacturer_fst, release_reference_fst, release_handle_fst]
    unfold release_file_descriptors
    rw [hrec]
    simp only [gt_iff_lt, hc, if_true]
    exact List.mem_append_right _ (List.mem_singleton.2 rfl)

theorem released_release_phdc_device (dev : usb_phdc_device) :
    Released (release_phdc_device dev).1 := by
  rw [(release_phdc_device_closed_form dev).1]
  refine ⟨rfl, rfl, rfl, rfl, rfl, rfl, ?_, rfl⟩
  show ¬ (0 : Int) < (if 0 < dev.file_descriptors_count then 0
    else dev.file_descriptors_count)
  split_ifs with hc
  · decide
  · exact hc

theorem release_phdc_device_twice (dev : usb_phdc_device) :
    release_phdc_device (release_phdc_device dev).1 = ((release_phdc_device dev).1, []) :=
  release_phdc_device_of_released _ (released_release_phdc_device dev)

theorem release_devices_twice (l : List usb_phdc_device) :
    release_devices (release_devices l).1 = ((release_devices l).1, []) := by
  induction l with
  | nil => rfl
  | cons dev rest ih =>
    simp only [release_devices, release_phdc_device_twice, ih, List.append_nil]

/-! ## The claims about sessions, teardown and the blocking read -/

/-- C7 on the code. `open_phdc_handle` returns 0 at each failing step, and what it gives
back is: nothing when `libusb_init` fails; the record's device reference (taken at
discovery, not by the open) when the open by vid/pid fails; the handle just opened (closed)
and again the record's device reference when the interface claim fails. In the last two
cases the context made by `libusb_init` is not shut down (`libusb_exit` is not called) and
stays in the record, and after a failed claim the closed handle stays in the record. -/
theorem C7_open_failure_unwind (a : OpenAnswers) (dev : usb_phdc_device) (h : Nat) :
    (a.init_ret ≠ 0 →
      open_phdc_handle a dev = (0, dev, [Action.libusb_init a.init_ret])) ∧
    (a.init_ret = 0 → a.opened = none →
      (open_phdc_handle a dev).1 = 0 ∧
      (open_phdc_handle a dev).2.2.filter Action.isRelease =
        [Action.libusb_unref_device dev.usb_device] ∧
      (open_phdc_handle a dev).2.1.usb_device_context = some a.init_ctx) ∧
    (a.init_ret = 0 → a.opened = some h → a.claim_ret ≠ 0 →
      (open_phdc_handle a dev).1 = 0 ∧
      (open_phdc_handle a dev).2.2.filter Action.isRelease =
        [Action.libusb_close (some h), Action.libusb_unref_device dev.usb_device] ∧
      (open_phdc_handle a dev).2.1.usb_device_handle = some h ∧
      (open_phdc_handle a dev).2.1.usb_device_context = some a.init_ctx) := by
  refine ⟨fun h0 => ?_, fun h0 h1 => ?_, fun h0 h1 h2 => ?_⟩
  · simp [open_phdc_handle, h0]
  · simp [open_phdc_handle, h0, h1, Action.isRelease, List.filter_cons]
  · simp [open_phdc_handle, h0, h1, h2, Action.isRelease, List.filter_cons]

/-- C7 at a discovered record when the interface claim fails: the function returns 0, closes
handle 50, drops the discovery-time reference 7, never calls `libusb_exit` on context 40,
and leaves handle 50, context 40 and reference 7 in the record; a later
`release_phdc_device` on that record then closes handle 50 and drops reference 7 a second
time. -/
theorem C7_claim_failure_at_discoveredDevice :
    (open_phdc_handle claimFails discoveredDevice).1 = 0 ∧
    (open_phdc_handle claimFails discoveredDevice).2.2 =
      [Action.libusb_init 0, Action.libusb_open_device_with_vid_pid (some 40) 0x1234 0x5678,
        Action.libusb_claim_interface (some 50) 0, Action.libusb_close (some 50),
        Action.libusb_unref_device (some 7)] ∧
    (open_phdc_handle claimFails discoveredDevice).2.1.usb_device_handle = some 50 ∧
    (open_phdc_handle claimFails discoveredDevice).2.1.usb_device_context = some 40 ∧
    (open_phdc_handle claimFails discoveredDevice).2.1.usb_device = some 7 ∧
    (release_phdc_device (open_phdc_handle claimFails discoveredDevice).2.1).2 =
      [Action.libusb_release_interface (some 50) 0, Action.libusb_close (some 50),
        Action.libusb_unref_device (some 7), Action.free (some 101), Action.free (some 100),
        Action.free (some 102), Action.free (some 103), Action.libusb_exit (some 40)] := by
  decide

/-- C8, as stated, fails: on a record whose `file_descriptors_count` is 0 and whose
`file_descriptors` pointer is not null (an open that found no pollfds), one call of
`release_phdc_device` neither frees nor nulls the poll-set array. -/
theorem C8_poll_set_kept_when_count_zero :
    (release_phdc_device openedNoPollfds).1.file_descriptors = some 60 ∧
    Action.free (some 60) ∉ (release_phdc_device openedNoPollfds).2 := by
  decide

/-- C8, amended. After one call of `release_phdc_device` on any record the handle, device
reference, name, manufacturer, serial, specialization list and per-device context fields
are null; the poll-set array is freed and nulled and `file_descriptors_count` set to 0
when the count was positive, and both are left as they were otherwise; and a second call on
the resulting record makes no call at all and leaves the record unchanged. -/
theorem C8_release_device_idempotent (dev : usb_phdc_device) :
    (release_phdc_device dev).1.usb_device_handle = none ∧
    (release_phdc_device dev).1.usb_device = none ∧
    (release_phdc_device dev).1.name = none ∧
    (release_phdc_device dev).1.manufacturer = none ∧
    (release_phdc_device dev).1.serial_number = none ∧
    (release_phdc_device dev).1.specializations = none ∧
    (release_phdc_device dev).1.usb_device_context = none ∧
    (0 < dev.file_descriptors_count →
      (release_phdc_device dev).1.file_descriptors = none ∧
      (release_phdc_device dev).1.file_descriptors_count = 0 ∧
      Action.free dev.file_descriptors ∈ (release_phdc_device dev).2) ∧
    (¬ 0 < dev.file_descriptors_count →
      (release_phdc_device dev).1.file_descriptors = dev.file_descriptors ∧
      (release_phdc_device dev).1.file_descriptors_count = dev.file_descriptors_count) ∧
    release_phdc_device (release_phdc_device dev).1 = ((release_phdc_device dev).1, []) := by
  have hrec := (release_phdc_device_closed_form dev).1
  have hfree := (release_phdc_device_closed_form dev).2
  refine ⟨by rw [hrec], by rw [hrec], by rw [hrec], by rw [hrec], by rw [hrec], by rw [hrec],
    by rw [hrec], fun hc => ?_, fun hc => ?_, ?_⟩
  · refine ⟨?_, ?_, hfree hc⟩
    · rw [hrec]; exact if_pos hc
    · rw [hrec]; exact if_pos hc
  · refine ⟨?_, ?_⟩
    · rw [hrec]; exact if_neg hc
    · rw [hrec]; exact if_neg hc
  · exact release_phdc_device_twice dev

/-- C9 on the code. The first call of `release_phdc_resources` releases the records and then
calls `libusb_exit` on the context-wide USB context; the field is not nulled, and the second
call, which makes no call for any record and leaves the context as it was, calls
`libusb_exit` on that same context again. -/
theorem C9_second_release_exits_again (c : usb_phdc_context) :
    (release_phdc_resources c).2 =
      (release_devices c.device_list).2 ++ [Action.libusb_exit c.usb_context] ∧
    (release_phdc_resources c).1.usb_context = c.usb_context ∧
    (release_phdc_resources (release_phdc_resources c).1).2 =
      [Action.libusb_exit c.usb_context] ∧
    (release_phdc_resources (release_phdc_resources c).1).1 = (release_phdc_resources c).1 := by
  refine ⟨rfl, rfl, ?_, ?_⟩
  · simp [release_phdc_resources, release_devices_twice]
  · simp [release_phdc_resources, release_devices_twice]

/-- C9 at a context with one opened record: both calls end with `libusb_exit` on the
context-wide USB context 1. -/
theorem C9_double_exit_at_openedContext :
    (release_phdc_resources openedContext).2 =
      [Action.libusb_release_interface (some 50) 0, Action.libusb_close (some 50),
        Action.libusb_unref_device (some 7), Action.free (some 101), Action.free (some 100),
        Action.free (some 102), Action.free (some 103), Action.free (some 60),
        Action.libusb_exit (some 40), Action.libusb_exit (some 1)] ∧
    (release_phdc_resources (release_phdc_resources openedContext).1).2 =
      [Action.libusb_exit (some 1)] := by
  decide

/-- C10, as stated, fails: when the blocking read returns 0 with a transfer count of 0,
`listen_for_incoming_data` invokes `data_read_cb` once, with length 0; and when it returns a
negative code after bytes arrived, the positive count is not forwarded. -/
theorem C10_callback_invoked_with_zero_count :
    (listen_for_incoming_data emptyRead discoveredDevice).2 = [([], 0)] ∧
    (listen_for_incoming_data timedOutRead discoveredDevice).2 = [] := by
  decide

/-- C10, amended. `listen_for_incoming_data` makes one blocking bulk read on the record's
handle and bulk-in endpoint and invokes `data_read_cb` at most once: exactly when the
return code of the read is not negative, and then with the data array and the transfer
count as the read left them (a count of 0 included); when the return code is negative no
callback is invoked, whatever the count. -/
theorem C10_callback_iff_return_code_nonnegative (o : BulkOutcome) (dev : usb_phdc_device) :
    (listen_for_incoming_data o dev).1 =
      [Action.libusb_bulk_transfer dev.usb_device_handle dev.ep_bulk_in 1024] ∧
    (listen_for_incoming_data o dev).2.length ≤ 1 ∧
    ((listen_for_incoming_data o dev).2 ≠ [] ↔ 0 ≤ o.ret) ∧
    (∀ call ∈ (listen_for_incoming_data o dev).2, call = (o.data, o.read_length)) := by
  unfold listen_for_incoming_data
  by_cases h : o.ret < 0
  · simp [h, MAX_BUFFER_SIZE]
  · simp [h, MAX_BUFFER_SIZE]
    omega

/-! ## The claim about endpoint classification -/

theorem lastAddress_nil (p : libusb_endpoint_descriptor → Bool) (prior : Nat) :
    lastAddress p [] prior = prior := rfl

theorem lastAddress_concat (p : libusb_endpoint_descriptor → Bool)
    (eps : List libusb_endpoint_descriptor) (ep : libusb_endpoint_descriptor) (prior : Nat) :
    lastAddress p (eps ++ [ep]) prior =
      if p ep then ep.bEndpointAddress.val else lastAddress p eps prior := by
  unfold lastAddress
  rw [getLast?_filter_concat]
  by_cases h : p ep
  · simp [h]
  · simp [h]

/-- The record after the endpoint loop, field by field. -/
theorem classify_endpoints_closed_form (eps : List libusb_endpoint_descriptor) :
    ∀ (dev : usb_phdc_device),
      classify_endpoints dev eps =
        { dev with
          ep_bulk_in := lastAddress isBulkIn eps dev.ep_bulk_in
          ep_bulk_out := lastAddress isBulkOut eps dev.ep_bulk_out
          ep_interrupt_in := lastAddress isInterruptIn eps dev.ep_interrupt_in } := by
  induction eps using List.reverseRecOn with
  | nil => intro dev; rfl
  | append_singleton eps ep ih =>
    intro dev
    unfold classify_endpoints at ih ⊢
    rw [List.foldl_append, ih dev]
    simp only [List.foldl_cons, List.foldl_nil, lastAddress_concat, isBulkIn, isBulkOut,
      isInterruptIn, classify_endpoint, LIBUSB_TRANSFER_TYPE_BULK,
      LIBUSB_TRANSFER_TYPE_INTERRUPT, LIBUSB_ENDPOINT_IN, LIBUSB_ENDPOINT_OUT,
      decide_eq_true_eq]
    by_cases hbi : ep.bmAttributes.val &&& 0x03 = 2 ∧ ep.bEndpointAddress.val &&& 0x80 = 0x80
    · have hbo : ¬ (ep.bmAttributes.val &&& 0x03 = 2 ∧
          ep.bEndpointAddress.val &&& 0x80 = 0x00) := fun h => by
        have := hbi.2; have := h.2; omega
      have hii : ¬ (ep.bmAttributes.val &&& 0x03 = 3 ∧
          ep.bEndpointAddress.val &&& 0x80 = 0x80) := fun h => by
        have := hbi.1; have := h.1; omega
      rw [if_pos hbi, if_pos hbi, if_neg hbo, if_neg hii]
    · by_cases hbo : ep.bmAttributes.val &&& 0x03 = 2 ∧
          ep.bEndpointAddress.val &&& 0x80 = 0x00
      · have hii : ¬ (ep.bmAttributes.val &&& 0x03 = 3 ∧
            ep.bEndpointAddress.val &&& 0x80 = 0x80) := fun h => by
          have := hbo.1; have := h.1; omega
        rw [if_neg hbi, if_neg hbi, if_pos hbo, if_pos hbo, if_neg hii]
      · by_cases hii : ep.bmAttributes.val &&& 0x03 = 3 ∧
            ep.bEndpointAddress.val &&& 0x80 = 0x80
        · rw [if_neg hbi, if_neg hbi, if_neg hbo, if_neg hbo, if_pos hii, if_pos hii]
        · rw [if_neg hbi, if_neg hbi, if_neg hbo, if_neg hbo, if_neg hii, if_neg hii]

theorem classify_endpoint_cases (dev : usb_phdc_device) (ep : libusb_endpoint_descriptor) :
    (isBulkIn ep = true →
      classify_endpoint dev ep = { dev with ep_bulk_in := ep.bEndpointAddress.val }) ∧
    (isBulkOut ep = true →
      classify_endpoint dev ep = { dev with ep_bulk_out := ep.bEndpointAddress.val }) ∧
    (isInterruptIn ep = true →
      classify_endpoint dev ep = { dev with ep_interrupt_in := ep.bEndpointAddress.val }) ∧
    (isBulkIn ep = false → isBulkOut ep = false → isInterruptIn ep = false →
      classify_endpoint dev ep = dev) := by
  simp only [isBulkIn, isBulkOut, isInterruptIn, classify_endpoint, LIBUSB_TRANSFER_TYPE_BULK,
    LIBUSB_TRANSFER_TYPE_INTERRUPT, LIBUSB_ENDPOINT_IN, LIBUSB_ENDPOINT_OUT,
    decide_eq_true_eq, decide_eq_false_iff_not]
  refine ⟨fun h => ?_, fun h => ?_, fun h => ?_, fun h1 h2 h3 => ?_⟩
  · rw [if_pos h]
  · have h1 : ¬ (ep.bmAttributes.val &&& 0x03 = 2 ∧
        ep.bEndpointAddress.val &&& 0x80 = 0x80) := fun g => by
      have := h.2; have := g.2; omega
    rw [if_neg h1, if_pos h]
  · have h1 : ¬ (ep.bmAttributes.val &&& 0x03 = 2 ∧
        ep.bEndpointAddress.val &&& 0x80 = 0x80) := fun g => by
      have := h.1; have := g.1; omega
    have h2 : ¬ (ep.bmAttributes.val &&& 0x03 = 2 ∧
        ep.bEndpointAddress.val &&& 0x80 = 0x00) := fun g => by
      have := h.1; have := g.1; omega
    rw [if_neg h1, if_neg h2, if_pos h]
  · rw [if_neg h1, if_neg h2, if_neg h3]

/-- C11. Endpoint classification in `get_phdc_device_attributes`. One endpoint sets
`ep_bulk_in` when it is bulk/IN, `ep_bulk_out` when it is bulk/OUT, `ep_interrupt_in` when
it is interrupt/IN (by `bmAttributes & 0x03` and `bEndpointAddress & 0x80`) and nothing
otherwise, so it changes at most one of the three fields. After the loop over any list of
endpoints each of the three fields is the address of the last endpoint of its category in
list order, or its prior value when no endpoint of the list is in that category, and no
other field of the record has changed. -/
theorem C11_endpoint_classification (dev : usb_phdc_device)
    (eps : List libusb_endpoint_descriptor) :
    classify_endpoints dev eps =
      { dev with
        ep_bulk_in := lastAddress isBulkIn eps dev.ep_bulk_in
        ep_bulk_out := lastAddress isBulkOut eps dev.ep_bulk_out
        ep_interrupt_in := lastAddress isInterruptIn eps dev.ep_interrupt_in } ∧
    (∀ (p : libusb_endpoint_descriptor → Bool) (prior : Nat),
      (eps.filter p = [] → lastAddress p eps prior = prior) ∧
      (∀ ep, (eps.filter p).getLast? = some ep →
        ep ∈ eps ∧ p ep = true ∧ lastAddress p eps prior = ep.bEndpointAddress.val)) ∧
    (∀ (r : usb_phdc_device) (ep : libusb_endpoint_descriptor),
      (isBulkIn ep = true →
        classify_endpoint r ep = { r with ep_bulk_in := ep.bEndpointAddress.val }) ∧
      (isBulkOut ep = true →
        classify_endpoint r ep = { r with ep_bulk_out := ep.bEndpointAddress.val }) ∧
      (isInterruptIn ep = true →
        classify_endpoint r ep = { r with ep_interrupt_in := ep.bEndpointAddress.val }) ∧
      (isBulkIn ep = false → isBulkOut ep = false → isInterruptIn ep = false →
        classify_endpoint r ep = r) ∧
      (((classify_endpoint r ep).ep_bulk_in = r.ep_bulk_in ∧
          (classify_endpoint r ep).ep_bulk_out = r.ep_bulk_out) ∨
        ((classify_endpoint r ep).ep_bulk_in = r.ep_bulk_in ∧
          (classify_endpoint r ep).ep_interrupt_in = r.ep_interrupt_in) ∨
        ((classify_endpoint r ep).ep_bulk_out = r.ep_bulk_out ∧
          (classify_endpoint r ep).ep_interrupt_in = r.ep_interrupt_in))) := by
  refine ⟨classify_endpoints_closed_form eps dev, fun p prior => ⟨fun h => ?_, fun ep h => ?_⟩,
    fun r ep => ?_⟩
  · simp [lastAddress, h]
  · have hm : ep ∈ eps.filter p := List.mem_of_getLast?_eq_some h
    refine ⟨(List.mem_filter.1 hm).1, (List.mem_filter.1 hm).2, ?_⟩
    simp [lastAddress, h]
  · obtain ⟨h1, h2, h3, h4⟩ := classify_endpoint_cases r ep
    refine ⟨h1, h2, h3, h4, ?_⟩
    by_cases g1 : isBulkIn ep = true
    · rw [h1 g1]; exact Or.inr (Or.inr ⟨rfl, rfl⟩)
    · by_cases g2 : isBulkOut ep = true
      · rw [h2 g2]; exact Or.inr (Or.inl ⟨rfl, rfl⟩)
      · by_cases g3 : isInterruptIn ep = true
        · rw [h3 g3]; exact Or.inl ⟨rfl, rfl⟩
        · rw [h4 (by simpa using g1) (by simpa using g2) (by simpa using g3)]
          exact Or.inl ⟨rfl, rfl⟩

/-- C11 at `sampleEndpoints`: the second bulk/IN endpoint 0x85 wins over 0x81, bulk/OUT is
0x02, interrupt/IN is 0x83, the isochronous endpoint changes nothing; with only the
isochronous endpoint the three fields keep the values of the record. -/
theorem C11_endpoint_classification_example :
    (classify_endpoints discoveredDevice sampleEndpoints).ep_bulk_in = 0x85 ∧
    (classify_endpoints discoveredDevice sampleEndpoints).ep_bulk_out = 0x02 ∧
    (classify_endpoints discoveredDevice sampleEndpoints).ep_interrupt_in = 0x83 ∧
    classify_endpoints discoveredDevice [⟨0x86, 0x01⟩] = discoveredDevice := by
  decide

/-! ## The two scans agree -/

theorem read_specs_length (buffer : List Byte) (index : Nat) :
    ∀ (k i : Nat) (l : List Nat), read_specs buffer index i k = Except.ok l → l.length = k := by
  intro k
  induction k with
  | zero =>
    intro i l h
    simp only [read_specs] at h
    cases h
    rfl
  | succ k ih =>
    intro i l h
    simp only [read_specs] at h
    cases hlo : rd buffer (2 * i + index + 4) with
    | error e => rw [hlo] at h; cases h
    | ok lo =>
      cases hhi : rd buffer (2 * i + index + 5) with
      | error e => rw [hlo, hhi] at h; cases h
      | ok hi =>
        cases hr : read_specs buffer index (i + 1) k with
        | error e => rw [hlo, hhi, hr] at h; cases h
        | ok rest =>
          rw [hlo, hhi, hr] at h
          simp only [Except.bind] at h
          cases h
          simp [ih (i + 1) rest hr]

theorem rd_and_0xFF (buffer : List Byte) (i v : Nat) (h : rd buffer i = Except.ok v) :
    v &&& 0xFF = v := by
  rw [rd_eq_ok buffer i v h]
  exact byteAt_and _ _

/-- One iteration of each scan from agreeing locals leaves agreeing locals. -/
theorem body_agree (d : PhdcDefs) (buffer : List Byte)
    (hd : d.PHDC_CLASSFUNCTION_DESCRIPTOR ≠ d.PHDC_11073PHD_FUNCTION_DESCRIPTOR)
    (cs cs1 : CompatState) (ss ss1 : SpecState) (hR : ScansAgree cs ss)
    (hc : compat_body d buffer cs = Except.ok cs1)
    (hs : specs_body d buffer ss = Except.ok ss1) :
    ScansAgree cs1 ss1 := by
  obtain ⟨ci, cn, cm⟩ := cs
  obtain ⟨si, sn, sl⟩ := ss
  obtain ⟨hi, hn, hl⟩ := hR
  simp only at hi hn hl
  subst hi hn
  unfold compat_body at hc
  unfold specs_body at hs
  simp only at hc hs
  cases h0 : rd buffer ci with
  | error e => rw [h0] at hc; cases hc
  | ok len =>
    cases h1 : rd buffer (ci + 1) with
    | error e => rw [h0, h1] at hc; cases hc
    | ok b1 =>
      have hb1 := rd_and_0xFF buffer _ _ h1
      rw [h0, h1] at hc hs
      simp only [Except.bind, hb1] at hc hs
      by_cases hf : b1 = d.PHDC_11073PHD_FUNCTION_DESCRIPTOR
      · have hcl : ¬ b1 = d.PHDC_CLASSFUNCTION_DESCRIPTOR := fun h => hd (h ▸ hf)
        rw [if_neg hcl, if_pos hf] at hc
        rw [if_pos hf] at hs
        cases h3 : rd buffer (ci + 3) with
        | error e => rw [h3] at hc; cases hc
        | ok b3 =>
          have hb3 := rd_and_0xFF buffer _ _ h3
          rw [h3] at hc hs
          simp only [hb3] at hc hs
          cases hc
          by_cases hpos : b3 > 0
          · rw [if_pos hpos] at hs
            cases hr : read_specs buffer ci 0 b3 with
            | error e => rw [hr] at hs; cases hs
            | ok l =>
              rw [hr] at hs
              simp only at hs
              cases hs
              exact ⟨rfl, rfl, fun _ => ⟨l, rfl, read_specs_length buffer ci b3 0 l hr⟩⟩
          · rw [if_neg hpos] at hs
            simp only at hs
            cases hs
            exact ⟨rfl, rfl, fun h => absurd h hpos⟩
      · rw [if_neg hf] at hs
        simp only at hs
        cases hs
        rw [if_neg hf] at hc
        by_cases hcl : b1 = d.PHDC_CLASSFUNCTION_DESCRIPTOR
        · rw [if_pos hcl] at hc
          cases h2 : rd buffer (ci + 2) with
          | error e => rw [h2] at hc; cases hc
          | ok b2 =>
            rw [h2] at hc
            simp only at hc
            split_ifs at hc <;> cases hc <;> exact ⟨rfl, rfl, hl⟩
        · rw [if_neg hcl] at hc
          simp only at hc
          cases hc
          exact ⟨rfl, rfl, hl⟩

/-- The two loops, run from agreeing locals, end with agreeing locals. -/
theorem loops_agree (d : PhdcDefs) (buffer : List Byte)
    (hd : d.PHDC_CLASSFUNCTION_DESCRIPTOR ≠ d.PHDC_11073PHD_FUNCTION_DESCRIPTOR) :
    ∀ (fuel1 fuel2 : Nat) (cs cs1 : CompatState) (ss ss1 : SpecState), ScansAgree cs ss →
      compat_loop d buffer fuel1 cs = Except.ok cs1 →
      specs_loop d buffer fuel2 ss = Except.ok ss1 →
      ScansAgree cs1 ss1 := by
  intro fuel1
  induction fuel1 with
  | zero => intro fuel2 cs cs1 ss ss1 _ hc _; simp [compat_loop] at hc
  | succ fuel1 ih =>
    intro fuel2 cs cs1 ss ss1 hR hc hs
    cases fuel2 with
    | zero => simp [specs_loop] at hs
    | succ fuel2 =>
      simp only [compat_loop] at hc
      simp only [specs_loop] at hs
      cases hcb : compat_body d buffer cs with
      | error e => rw [hcb] at hc; cases hc
      | ok cs2 =>
        cases hsb : specs_body d buffer ss with
        | error e => rw [hsb] at hs; cases hs
        | ok ss2 =>
          have hR2 := body_agree d buffer hd cs cs2 ss ss2 hR hcb hsb
          rw [hcb] at hc
          rw [hsb] at hs
          simp only [Except.bind] at hc hs
          rw [← hR2.1] at hs
          by_cases hlt : cs2.index < buffer.length
          · rw [if_pos hlt] at hc hs
            exact ih fuel2 cs2 cs1 ss2 ss1 hR2 hc hs
          · rw [if_neg hlt] at hc hs
            cases hc
            cases hs
            exact hR2

/-- When both scans return on the same buffer and the verdict is 1, the count and the list
of `get_device_specializations` are those the verdict used. -/
theorem scans_agree (d : PhdcDefs) (buffer : List Byte) (fuel1 fuel2 : Nat)
    (r : Option (List Nat) × Nat)
    (hd : d.PHDC_CLASSFUNCTION_DESCRIPTOR ≠ d.PHDC_11073PHD_FUNCTION_DESCRIPTOR)
    (h1 : is_ieee11073_compatible d buffer fuel1 = Except.ok 1)
    (h2 : get_device_specializations d buffer 0 fuel2 = Except.ok r) :
    ∃ l, r = (some l, l.length) ∧ 0 < l.length ∧
      ∃ cs, compat_loop d buffer fuel1 ⟨0, 0, 0⟩ = Except.ok cs ∧
        cs.number_of_specs = l.length ∧ cs.is_ieee11073 = 1 := by
  unfold is_ieee11073_compatible at h1
  unfold get_device_specializations at h2
  by_cases hpos : buffer.length > 0
  · rw [if_pos hpos] at h1 h2
    cases hc : compat_loop d buffer fuel1 ⟨0, 0, 0⟩ with
    | error e => rw [hc] at h1; cases h1
    | ok cs =>
      cases hs : specs_loop d buffer fuel2 ⟨0, 0, none⟩ with
      | error e => rw [hs] at h2; cases h2
      | ok ss =>
        rw [hc] at h1
        rw [hs] at h2
        simp only [Except.bind] at h1 h2
        have hR := loops_agree d buffer hd fuel1 fuel2 _ cs _ ss
          ⟨rfl, rfl, fun h => absurd h (Nat.lt_irrefl 0)⟩ hc hs
        have hv : cs.number_of_specs > 0 ∧ cs.is_ieee11073 = 1 := by
          by_contra hcon
          rw [if_neg hcon] at h1
          cases h1
        obtain ⟨hi, hn, hl⟩ := hR
        obtain ⟨l, hl1, hl2⟩ := hl (by rw [← hn]; exact hv.1)
        refine ⟨l, ?_, ?_, cs, rfl, ?_, hv.2⟩
        · cases h2
          rw [hl1, hl2]
        · rw [hl2, ← hn]; exact hv.1
        · rw [hl2, hn]
  · rw [if_neg hpos] at h1
    simp [Except.bind] at h1

theorem classify_endpoints_specializations (dev : usb_phdc_device)
    (eps : List libusb_endpoint_descriptor) :
    (classify_endpoints dev eps).number_of_specializations = dev.number_of_specializations ∧
    (classify_endpoints dev eps).specializations = dev.specializations := by
  rw [classify_endpoints_closed_form]
  exact ⟨rfl, rfl⟩

theorem attributes_loop_filled (d : PhdcDefs) (cls : Nat) (a : DiscoveryAnswers)
    (fuel1 fuel2 : Nat)
    (hd : d.PHDC_CLASSFUNCTION_DESCRIPTOR ≠ d.PHDC_11073PHD_FUNCTION_DESCRIPTOR)
    (hclaim : ∀ j, a.attr_claim_ret j = 0) :
    ∀ (l : List libusb_interface_descriptor) (j : Nat) (e : DeviceEntry)
      (r : Bool × DeviceEntry),
      probe_loop d cls fuel1 l = Except.ok 1 →
      attributes_loop d cls a fuel2 l j e = Except.ok r →
      r.1 = false ∧ SpecializationsFilled r.2 := by
  intro l
  induction l with
  | nil => intro j e r hp _; simp [probe_loop] at hp
  | cons i rest ih =>
    intro j e r hp ha
    simp only [probe_loop] at hp
    simp only [attributes_loop, hclaim j, ne_eq, not_true_eq_false, if_false] at ha
    by_cases hc : i.bInterfaceClass.val = cls
    · rw [if_pos hc] at hp ha
      cases hs : get_device_specializations d i.extra 0 fuel2 with
      | error err => rw [hs] at ha; cases ha
      | ok res =>
        obtain ⟨lst, hres, hlen, _⟩ := scans_agree d i.extra fuel1 fuel2 res hd hp hs
        rw [hs] at ha
        simp only [Except.bind] at ha
        cases ha
        subst hres
        refine ⟨rfl, ?_, ?_, lst, rfl, ?_⟩
        · show 0 < (classify_endpoints _ i.endpoint).number_of_specializations
          rw [(classify_endpoints_specializations _ _).1]
          exact hlen
        · show (classify_endpoints _ i.endpoint).specializations ≠ none
          rw [(classify_endpoints_specializations _ _).2]
          simp
        · show lst.length = (classify_endpoints _ i.endpoint).number_of_specializations
          rw [(classify_endpoints_specializations _ _).1]
    · rw [if_neg hc] at hp ha
      exact ih (j + 1) e r hp ha

theorem discover_device_filled (d : PhdcDefs) (cls : Nat) (a : DiscoveryAnswers) (fuel : Nat)
    (hd : d.PHDC_CLASSFUNCTION_DESCRIPTOR ≠ d.PHDC_11073PHD_FUNCTION_DESCRIPTOR)
    (hcalls : AttributeCallsSucceed a) (e : DeviceEntry)
    (h : discover_device d cls a fuel = Except.ok (some e)) :
    SpecializationsFilled e := by
  obtain ⟨ho, hcfg, hclaim⟩ := hcalls
  unfold discover_device at h
  by_cases hdesc : a.descriptor_ret < 0
  · rw [if_pos hdesc] at h; cases h
  · rw [if_neg hdesc] at h
    cases hv : is_phdc_11073_device d cls a fuel with
    | error err => rw [hv] at h; cases h
    | ok v =>
      rw [hv] at h
      simp only [Except.bind] at h
      by_cases h1 : v = 1
      · subst h1
        rw [if_pos rfl] at h
        have hp : probe_loop d cls fuel a.config = Except.ok 1 := by
          unfold is_phdc_11073_device at hv
          split_ifs at hv
          · cases hv
          · cases hv
          · cases hv
          · exact hv
        unfold get_phdc_device_attributes at h
        simp only [ho, hcfg, ne_eq, not_true_eq_false, if_false] at h
        cases hl : attributes_loop d cls a fuel a.config 0
            ⟨{ a.fresh with usb_device := a.device_ref }, none⟩ with
        | error err => rw [hl] at h; cases h
        | ok r =>
          obtain ⟨hr1, hr2⟩ := attributes_loop_filled d cls a fuel fuel hd hclaim _ _ _ r hp hl
          rw [hl] at h
          simp only [Except.bind, hr1] at h
          cases h
          exact hr2
      · rw [if_neg h1] at h; cases h

theorem discover_device_unfilled (d : PhdcDefs) (cls : Nat) (a : DiscoveryAnswers) (fuel : Nat)
    (hdesc : ¬ a.descriptor_ret < 0)
    (hv : is_phdc_11073_device d cls a fuel = Except.ok 1)
    (hfail : a.attr_open_ret ≠ 0 ∨ a.attr_config_ret ≠ 0) :
    discover_device d cls a fuel =
      Except.ok (some ⟨{ a.fresh with usb_device := a.device_ref }, none⟩) := by
  unfold discover_device
  rw [if_neg hdesc, hv]
  simp only [Except.bind, if_true]
  unfold get_phdc_device_attributes
  by_cases ho : a.attr_open_ret ≠ 0
  · rw [if_pos ho]
  · rw [if_neg ho]
    have hc : a.attr_config_ret ≠ 0 := hfail.resolve_left ho
    rw [if_pos hc]

theorem search_phdc_devices_filled (d : PhdcDefs) (cls : Nat) (fuel : Nat)
    (hd : d.PHDC_CLASSFUNCTION_DESCRIPTOR ≠ d.PHDC_11073PHD_FUNCTION_DESCRIPTOR) :
    ∀ (answers : List DiscoveryAnswers) (device_list result : List DeviceEntry),
      (∀ a ∈ answers, AttributeCallsSucceed a) →
      (∀ e ∈ device_list, SpecializationsFilled e) →
      search_phdc_devices d cls fuel answers device_list = Except.ok result →
      ∀ e ∈ result, SpecializationsFilled e := by
  intro answers
  induction answers with
  | nil =>
    intro device_list result _ hl h
    simp only [search_phdc_devices] at h
    cases h
    exact hl
  | cons a rest ih =>
    intro device_list result ha hl h
    simp only [search_phdc_devices] at h
    cases hdv : discover_device d cls a fuel with
    | error err => rw [hdv] at h; cases h
    | ok r =>
      rw [hdv] at h
      simp only [Except.bind] at h
      have har : ∀ x ∈ rest, AttributeCallsSucceed x := fun x hx =>
        ha x (List.mem_cons_of_mem _ hx)
      cases r with
      | none => exact ih device_list result har hl h
      | some e =>
        have he := discover_device_filled d cls a fuel hd (ha a (List.mem_cons_self _ _)) e hdv
        refine ih (device_list ++ [e]) result har (fun x hx => ?_) h
        rcases List.mem_append.1 hx with hx1 | hx1
        · exact hl x hx1
        · rw [List.mem_singleton.1 hx1]; exact he

/-- C12 on the code (the two tags being distinct constants). (1) The scans agree: on any
buffer on which both return, if `is_ieee11073_compatible` returns 1 then
`get_device_specializations`, entered with `*num_specs = 0`, ends with `*num_specs` equal
to the positive count the verdict used and returns a non-null list of exactly that many
entries. (2) So a record that discovery adds has a positive `number_of_specializations`
equal to the length of its specialization list whenever the `libusb_open`,
`libusb_get_config_descriptor` and `libusb_claim_interface` calls of
`get_phdc_device_attributes` succeed, for one device and for the whole device list.
(3) But the record is added to the list before `get_phdc_device_attributes` runs, and when
its `libusb_open` or `libusb_get_config_descriptor` fails that function returns at once: the
record stays in the list with only its device reference set, `number_of_specializations`
and `specializations` being whatever the new slot held. -/
theorem C12_scans_agree_records_unfilled (d : PhdcDefs) (cls fuel : Nat)
    (hd : d.PHDC_CLASSFUNCTION_DESCRIPTOR ≠ d.PHDC_11073PHD_FUNCTION_DESCRIPTOR) :
    (∀ (buffer : List Byte) (fuel2 : Nat) (r : Option (List Nat) × Nat),
      is_ieee11073_compatible d buffer fuel = Except.ok 1 →
      get_device_specializations d buffer 0 fuel2 = Except.ok r →
      ∃ l, r = (some l, l.length) ∧ 0 < l.length ∧
        ∃ cs, compat_loop d buffer fuel ⟨0, 0, 0⟩ = Except.ok cs ∧
          cs.number_of_specs = l.length ∧ cs.is_ieee11073 = 1) ∧
    (∀ (a : DiscoveryAnswers) (e : DeviceEntry), AttributeCallsSucceed a →
      discover_device d cls a fuel = Except.ok (some e) → SpecializationsFilled e) ∧
    (∀ (answers : List DiscoveryAnswers) (result : List DeviceEntry),
      (∀ a ∈ answers, AttributeCallsSucceed a) →
      search_phdc_devices d cls fuel answers [] = Except.ok result →
      ∀ e ∈ result, SpecializationsFilled e) ∧
    (∀ (a : DiscoveryAnswers), ¬ a.descriptor_ret < 0 →
      is_phdc_11073_device d cls a fuel = Except.ok 1 →
      (a.attr_open_ret ≠ 0 ∨ a.attr_config_ret ≠ 0) →
      discover_device d cls a fuel =
        Except.ok (some ⟨{ a.fresh with usb_device := a.device_ref }, none⟩)) := by
  refine ⟨fun buffer fuel2 r h1 h2 => scans_agree d buffer fuel fuel2 r hd h1 h2,
    fun a e hc h => discover_device_filled d cls a fuel hd hc e h,
    fun answers result ha h => ?_,
    fun a h1 h2 h3 => discover_device_unfilled d cls a fuel h1 h2 h3⟩
  exact search_phdc_devices_filled d cls fuel hd answers [] result ha
    (fun e he => absurd he (List.not_mem_nil e)) h

/-- C12 at the composite device (PHDC interface at index 2, extra bytes `sampleEntries`):
the scans agree on the count 2 and the list `[4, 5]`; when every call succeeds the record
has `number_of_specializations = 2`; when the claim of interface 1 fails in
`get_phdc_device_attributes` the record is in the list all the same, with
`number_of_specializations = 0` and no specialization list. -/
theorem C12_unfilled_record_at_compositeDevice :
    (∃ l, ((some [4, 5], 2) : Option (List Nat) × Nat) = (some l, l.length) ∧ 0 < l.length ∧
      ∃ cs, compat_loop sampleDefs sampleEntries.flatten 12 ⟨0, 0, 0⟩ = Except.ok cs ∧
        cs.number_of_specs = l.length ∧ cs.is_ieee11073 = 1) ∧
    (∃ e, discover_device sampleDefs 0x0F allSucceed 12 = Except.ok (some e) ∧
      e.record.number_of_specializations = 2 ∧ e.specialization_list = some [4, 5] ∧
      e.record.specializations = some 103 ∧ e.record.health_interface = 2) ∧
    is_phdc_11073_device sampleDefs 0x0F claimOfInterfaceOneFails 12 = Except.ok 1 ∧
    discover_device sampleDefs 0x0F claimOfInterfaceOneFails 12 =
      Except.ok (some ⟨{ freshSlot with usb_device := some 7 }, none⟩) ∧
    ¬ SpecializationsFilled ⟨{ freshSlot with usb_device := some 7 }, none⟩ := by
  refine ⟨(C12_scans_agree_records_unfilled sampleDefs 0x0F 12 (by decide)).1
      sampleEntries.flatten 12 (some [4, 5], 2) (by decide) (by decide), ?_, by decide,
    by decide, ?_⟩
  · exact ⟨_, rfl, by decide, by decide, by decide, by decide⟩
  · intro h
    exact absurd h.1 (by decide)

end UsbPhdc
